import Mathlib

/-!
# simple_mp_mem_2: memory-bandwidth probe (`main.c`)

A shallow embedding of `evaluateBandwidth` and of the two role branches of
`main`, followed by the properties proved about them.

Conventions of the embedding

* `uint64_t` values are natural numbers reduced modulo `2 ^ 64` where the C
  code can wrap; `int` values are integers, and an `int` operation whose
  result leaves the 32-bit range is undefined behaviour in C and is reported
  as the fault `Fault.signedOverflow`.
* Memory is a map from byte addresses to byte values; a 256-bit vector is
  four 64-bit lanes stored little-endian (x86-64).
* Calls into the DPDK environment and the clocks are inputs of the model:
  the pointer returned by `rte_memzone_reserve_aligned` or
  `rte_memzone_lookup` (`none` is `NULL`), the difference of the two cycle
  counter reads, and the values returned by `gettimeofday`.
* `double` arithmetic is exact: a finite `double` is a rational number, no
  rounding is modelled; division by zero yields an infinity or a NaN as in
  IEEE 754 and does not fault.
-/

namespace SimpleMpMem

/-! ## Machine integers and faults -/

/-- Largest value of a C `int` (32 bits). -/
def INT_MAX : Int := 2147483647

/-- Abnormal outcomes of the modelled code. -/
inductive Fault where
  | signedOverflow
  | nullDeref
  | divideByZero
  | outOfFuel
deriving DecidableEq, Repr

/-- Conversion of a signed integer to `uint64_t` (reduction modulo `2 ^ 64`). -/
def toU64 (x : Int) : Nat := (x % 18446744073709551616).toNat

/-- Conversion of a `uint64_t` value to `int` (keeps the low 32 bits, two's
complement), as done by `int blocks = alloc_size/chunk_size` in the reader. -/
def toInt32 (x : Nat) : Int :=
  if x % 4294967296 < 2147483648 then (x % 4294967296 : Nat)
  else ((x % 4294967296 : Nat) : Int) - 4294967296

/-! ## 256-bit vectors and memory -/

/-- A `__m256i` value: four 64-bit lanes, `q0` at the lowest address. -/
structure M256i where
  q0 : Nat
  q1 : Nat
  q2 : Nat
  q3 : Nat
deriving DecidableEq, Repr

/-- Lane `n` of a vector. -/
def M256i.lane (v : M256i) (n : Nat) : Nat :=
  match n with
  | 0 => v.q0
  | 1 => v.q1
  | 2 => v.q2
  | _ => v.q3

/-- Byte `j` (`0 ≤ j < 32`) of the in-memory image of a vector. -/
def M256i.byte (v : M256i) (j : Nat) : Nat :=
  (v.lane (j / 8) / 256 ^ (j % 8)) % 256

/-- The post-increment `ymm0++` on a vector of 64-bit lanes adds one to every
lane (GCC vector extension); the lanes wrap modulo `2 ^ 64`. -/
def M256i.incr (v : M256i) : M256i :=
  ⟨(v.q0 + 1) % 18446744073709551616, (v.q1 + 1) % 18446744073709551616,
   (v.q2 + 1) % 18446744073709551616, (v.q3 + 1) % 18446744073709551616⟩

/-- Byte-addressed memory. -/
abbrev Mem := Nat → Nat

/-- Unaligned 32-byte store of `v` at `addr`. -/
def _mm256_storeu_si256 (mem : Mem) (addr : Nat) (v : M256i) : Mem :=
  fun a => if addr ≤ a ∧ a < addr + 32 then v.byte (a - addr) else mem a

/-- Little-endian 64-bit read at `a`. -/
def read64 (mem : Mem) (a : Nat) : Nat :=
  mem a % 256 + (mem (a + 1) % 256) * 256 ^ 1 + (mem (a + 2) % 256) * 256 ^ 2
    + (mem (a + 3) % 256) * 256 ^ 3 + (mem (a + 4) % 256) * 256 ^ 4
    + (mem (a + 5) % 256) * 256 ^ 5 + (mem (a + 6) % 256) * 256 ^ 6
    + (mem (a + 7) % 256) * 256 ^ 7

/-- Unaligned 32-byte load at `addr`. -/
def _mm256_loadu_si256 (mem : Mem) (addr : Nat) : M256i :=
  ⟨read64 mem addr, read64 mem (addr + 8), read64 mem (addr + 16), read64 mem (addr + 24)⟩

/-- The call `memset(buf, c, n)`, on a buffer indexed from 0. -/
def memset (buf : Mem) (c : Nat) (n : Nat) : Mem :=
  fun k => if k < n then c % 256 else buf k

/-- The global `uint8_t data[64]`, zero-initialised. -/
def data0 : Mem := fun _ => 0

/-- The global `data` after `memset(data, 0xaa, 64)` in `main`. -/
def data : Mem := memset data0 0xaa 64

/-! ## The `double` values of the measurement -/

/-- A `double` in exact arithmetic: a rational, an infinity or a NaN. -/
inductive CDouble where
  | fin (q : ℚ)
  | inf
  | ninf
  | nan
deriving DecidableEq

/-- Conversion `(double) n` of an unsigned integer. -/
def CDouble.ofU64 (n : Nat) : CDouble := .fin (n : ℚ)

/-- IEEE 754 division, exact on finite operands. -/
def CDouble.div : CDouble → CDouble → CDouble
  | .fin x, .fin y =>
    if y = 0 then (if x = 0 then .nan else if 0 < x then .inf else .ninf)
    else .fin (x / y)
  | .fin _, .inf => .fin 0
  | .fin _, .ninf => .fin 0
  | .inf, .fin y => if 0 ≤ y then .inf else .ninf
  | .ninf, .fin y => if 0 ≤ y then .ninf else .inf
  | _, _ => .nan

/-- IEEE 754 multiplication, exact on finite operands. -/
def CDouble.mul : CDouble → CDouble → CDouble
  | .fin x, .fin y => .fin (x * y)
  | .fin x, .inf => if x = 0 then .nan else if 0 < x then .inf else .ninf
  | .fin x, .ninf => if x = 0 then .nan else if 0 < x then .ninf else .inf
  | .inf, .fin y => if y = 0 then .nan else if 0 < y then .inf else .ninf
  | .ninf, .fin y => if y = 0 then .nan else if 0 < y then .ninf else .inf
  | .inf, .inf => .inf
  | .ninf, .ninf => .inf
  | .inf, .ninf => .ninf
  | .ninf, .inf => .ninf
  | _, _ => .nan

/-! ## `evaluateBandwidth` -/

/-- The constant `chunk_size = 256/8`. -/
def chunk_size : Nat := 256 / 8

/-- Local state of `evaluateBandwidth` during the store loops, together with
the memory. `stores` (addresses of the executed vector stores, oldest first)
and `rounds` (executions of the body of the `while` loop) are bookkeeping of
the model. -/
structure Locals where
  mem : Mem
  ymm0 : M256i
  addr : Nat
  i : Int
  stores : List Nat
  rounds : Nat

/-- One statement group of the unrolled loop body:
`_mm256_storeu_si256(addr, ymm0++); i++; addr += chunk_size;`. -/
def storeAdvance (s : Locals) : Except Fault Locals :=
  if s.i + 1 > INT_MAX then .error .signedOverflow
  else .ok { s with
    mem := _mm256_storeu_si256 s.mem s.addr s.ymm0
    ymm0 := s.ymm0.incr
    stores := s.stores ++ [s.addr]
    i := s.i + 1
    addr := (s.addr + chunk_size) % 18446744073709551616 }

/-- Body of the `while` loop: four statement groups, no test in between. -/
def whileBody (s : Locals) : Except Fault Locals :=
  match storeAdvance s with
  | .error e => .error e
  | .ok s1 =>
    match storeAdvance s1 with
    | .error e => .error e
    | .ok s2 =>
      match storeAdvance s2 with
      | .error e => .error e
      | .ok s3 =>
        match storeAdvance s3 with
        | .error e => .error e
        | .ok s4 => .ok { s4 with rounds := s4.rounds + 1 }

/-- The loop `while (i < blocks) { ... }`; `i` is converted to `uint64_t` for
the comparison. The first argument bounds the number of rounds. -/
def whileLoop (blocks : Nat) : Nat → Locals → Except Fault Locals
  | 0, s => if toU64 s.i < blocks then .error .outOfFuel else .ok s
  | fuel + 1, s =>
    if toU64 s.i < blocks then
      match whileBody s with
      | .error e => .error e
      | .ok s1 => whileLoop blocks fuel s1
    else .ok s

/-- The loop `for (int j = 0; j < iterations; j++)`: each pass reloads `addr`
from `shared_mem->addr`, resets `i` and runs the `while` loop. The first
argument bounds the number of passes; `j` stays below `iterations`, so `j++`
cannot overflow. -/
def forLoop (shared_mem : Option Nat) (blocks : Nat) (iterations : Int) :
    Nat → Int → Locals → Except Fault Locals
  | 0, j, s => if j < iterations then .error .outOfFuel else .ok s
  | fuel + 1, j, s =>
    if j < iterations then
      match shared_mem with
      | none => .error .nullDeref
      | some base =>
        match whileLoop blocks blocks
            { s with addr := base % 18446744073709551616, i := 0 } with
        | .error e => .error e
        | .ok s1 => forLoop shared_mem blocks iterations fuel (j + 1) s1
    else .ok s

/-- The values `evaluateBandwidth` prints (`size_kb`, `bandwidth`,
`cpu_time_us`); `bandwidth` is also its return value. -/
structure Measurement where
  size_kb : Nat
  bandwidth : CDouble
  cpu_time_us : CDouble
deriving DecidableEq

/-- The product `alloc_size*iterations` in `uint64_t` arithmetic. -/
def bytesMoved (alloc_size : Nat) (iterations : Int) : Nat :=
  (alloc_size * toU64 iterations) % 18446744073709551616

/-- Lines 128 to 134: the elapsed time in microseconds, the bandwidth and the
printed size field, from the cycle difference `cycles`. -/
def measurement (tsc_rate cycles alloc_size : Nat) (iterations : Int) : Measurement :=
  let cpu_time_us :=
    CDouble.mul (CDouble.div (CDouble.ofU64 cycles) (CDouble.ofU64 tsc_rate)) (.fin 1000000)
  { size_kb := alloc_size / 1024
    bandwidth := CDouble.div (CDouble.ofU64 (bytesMoved alloc_size iterations)) cpu_time_us
    cpu_time_us := cpu_time_us }

/-- State at entry of the store loops: `ymm0` is loaded from `data`. -/
def initLocals (dat mem : Mem) : Locals :=
  { mem := mem, ymm0 := _mm256_loadu_si256 dat 0, addr := 0, i := 0, stores := [], rounds := 0 }

/-- The store loops of `evaluateBandwidth` (lines 89 to 126). -/
def storeLoops (dat mem : Mem) (shared_mem : Option Nat) (alloc_size : Nat)
    (iterations : Int) : Except Fault Locals :=
  forLoop shared_mem (alloc_size / chunk_size) iterations iterations.toNat 0
    (initLocals dat mem)

/-- The function `evaluateBandwidth(alloc_size, alloc_socketid, iterations)`.
Inputs of the model besides the C arguments: the globals `data` and
`tsc_rate`, the memory, the result `shared_mem` of
`rte_memzone_reserve_aligned`, and the difference `cycles` of the two reads of
the cycle counter. The result pairs the state after the store loops with the
printed values; `rte_memzone_free` changes neither. -/
def evaluateBandwidth (dat : Mem) (tsc_rate : Nat) (mem : Mem) (shared_mem : Option Nat)
    (cycles : Nat) (alloc_size : Nat) (_alloc_socketid : Int) (iterations : Int) :
    Except Fault (Locals × Measurement) :=
  match storeLoops dat mem shared_mem alloc_size iterations with
  | .error e => .error e
  | .ok s => .ok (s, measurement tsc_rate cycles alloc_size iterations)

/-! ## The writer schedule of `main` (primary process) -/

/-- Multiplication of two `int` values; a result outside the 32-bit range is
undefined behaviour. -/
def intMul (x y : Int) : Except Fault Int :=
  if x * y > INT_MAX ∨ x * y < -INT_MAX - 1 then .error .signedOverflow else .ok (x * y)

/-- Addition of two `int` values. -/
def intAdd (x y : Int) : Except Fault Int :=
  if x + y > INT_MAX ∨ x + y < -INT_MAX - 1 then .error .signedOverflow else .ok (x + y)

/-- Division of two `int` values (truncating). -/
def intDiv (x y : Int) : Except Fault Int :=
  if y = 0 then .error .divideByZero
  else if Int.tdiv x y > INT_MAX then .error .signedOverflow
  else .ok (Int.tdiv x y)

/-- Arguments of one call `evaluateBandwidth(a*1024, alloc_socketid, 262144/a)`;
`a` is the loop variable, `alloc_size` the first argument after its conversion
to `uint64_t`. -/
structure Call where
  a : Int
  alloc_size : Nat
  iterations : Int
deriving DecidableEq, Repr

/-- The loop `for (int a = 128; a < 1048576; a += 256)` of the writer, as the
sequence of calls of `evaluateBandwidth` it makes. The first argument bounds
the number of steps. -/
def writerFor : Nat → Int → Except Fault (List Call)
  | 0, a => if a < 1048576 then .error .outOfFuel else .ok []
  | fuel + 1, a =>
    if a < 1048576 then
      match intMul a 1024 with
      | .error e => .error e
      | .ok sz =>
        match intDiv 262144 a with
        | .error e => .error e
        | .ok it =>
          match intAdd a 256 with
          | .error e => .error e
          | .ok a1 =>
            match writerFor fuel a1 with
            | .error e => .error e
            | .ok rest => .ok ({ a := a, alloc_size := toU64 sz, iterations := it } :: rest)
    else .ok []

/-- The calls made by the writer branch of `main`. -/
def writerSchedule : Except Fault (List Call) := writerFor 4096 128

/-! ## The reader loop of `main` (secondary process) -/

/-- A `struct timeval`. -/
structure Timeval where
  tv_sec : Int
  tv_usec : Int
deriving DecidableEq, Repr

/-- Locals of the reader during one read sweep; `loads` (addresses of the
executed vector loads, oldest first) is bookkeeping of the model. -/
structure RLocals where
  ymm0 : M256i
  addr : Nat
  i : Int
  loads : List Nat

/-- One statement group of the reader loop body:
`ymm0 = _mm256_loadu_si256(addr); i++; addr += chunk_size;`. -/
def loadAdvance (mem : Mem) (s : RLocals) : Except Fault RLocals :=
  if s.i + 1 > INT_MAX then .error .signedOverflow
  else .ok
    { ymm0 := _mm256_loadu_si256 mem s.addr
      loads := s.loads ++ [s.addr]
      i := s.i + 1
      addr := (s.addr + chunk_size) % 18446744073709551616 }

/-- Body of the reader `while` loop: two statement groups. -/
def readerBody (mem : Mem) (s : RLocals) : Except Fault RLocals :=
  match loadAdvance mem s with
  | .error e => .error e
  | .ok s1 => loadAdvance mem s1

/-- The reader loop `while (i < blocks) { ... }`, a comparison of two `int`s.
The first argument bounds the number of rounds. -/
def readerWhile (mem : Mem) (blocks : Int) : Nat → RLocals → Except Fault RLocals
  | 0, s => if s.i < blocks then .error .outOfFuel else .ok s
  | fuel + 1, s =>
    if s.i < blocks then
      match readerBody mem s with
      | .error e => .error e
      | .ok s1 => readerWhile mem blocks fuel s1
    else .ok s

/-- The value `elapsed` of line 236, converted to `uint64_t`. -/
def elapsedUs (st et : Timeval) : Nat :=
  toU64 ((et.tv_sec - st.tv_sec) * 1000000 + (et.tv_usec - st.tv_usec))

/-- What the reader has done so far: `lines` are the printed pairs
(`alloc_size/elapsed`, `elapsed`), oldest first, `sweeps` lists for each
completed read sweep the addresses it loaded, `ymm0` is the vector variable. -/
structure ReaderState where
  ymm0 : M256i
  lines : List (Nat × Nat)
  sweeps : List (List Nat)

/-- The iterations `j, j+1, ..., j+n-1` of the reader loop
`for (int j = 0; j < 100000000; j++)`. The `k`-th call of `gettimeofday`
returns `clock k`; iteration `j` makes the calls `2*j` and `2*j+1`. -/
def readerFor (mem : Mem) (shared_mem : Option Nat) (clock : Nat → Timeval)
    (alloc_size : Nat) (blocks : Int) : Nat → Nat → ReaderState → Except Fault ReaderState
  | 0, _, r => .ok r
  | n + 1, j, r =>
    match shared_mem with
    | none => .error .nullDeref
    | some base =>
      match readerWhile mem blocks blocks.toNat
          { ymm0 := r.ymm0, addr := base % 18446744073709551616, i := 0, loads := [] } with
      | .error e => .error e
      | .ok s =>
        if elapsedUs (clock (2 * j)) (clock (2 * j + 1)) = 0 then .error .divideByZero
        else
          readerFor mem shared_mem clock alloc_size blocks n (j + 1)
            { ymm0 := s.ymm0
              lines := r.lines ++
                [(alloc_size / elapsedUs (clock (2 * j)) (clock (2 * j + 1)),
                  elapsedUs (clock (2 * j)) (clock (2 * j + 1)))]
              sweeps := r.sweeps ++ [s.loads] }

/-- Outcome of the reader branch when it reaches the idle loop
`while (1) rte_delay_ms(100)`: the reader state and the number of calls of
`rte_memzone_lookup` it has made. -/
structure ReaderResult where
  state : ReaderState
  lookups : Nat

/-- The reader branch of `main` (lines 204 to 241). The `k`-th call of
`rte_memzone_lookup("shared_mem")` would return `lookup k` (`none` is `NULL`);
the branch makes the single call of line 206. `ymm0` is the uninitialised
vector variable, `mem` the memory read by the loads. -/
def readerBranch (mem : Mem) (lookup : Nat → Option Nat) (clock : Nat → Timeval)
    (alloc_size : Nat) (ymm0 : M256i) : Except Fault ReaderResult :=
  match readerFor mem (lookup 0) clock alloc_size (toInt32 (alloc_size / chunk_size))
      100000000 0 { ymm0 := ymm0, lines := [], sweeps := [] } with
  | .error e => .error e
  | .ok r => .ok { state := r, lookups := 1 }

/-! ## Auxiliary definitions used in the statements -/

/-- All four lanes are 64-bit values. -/
def M256i.wf (v : M256i) : Prop :=
  v.q0 < 18446744073709551616 ∧ v.q1 < 18446744073709551616 ∧
  v.q2 < 18446744073709551616 ∧ v.q3 < 18446744073709551616

/-- Adds `n` to every lane, modulo `2 ^ 64`: the effect of `n` increments. -/
def M256i.addLanes (v : M256i) (n : Nat) : M256i :=
  ⟨(v.q0 + n) % 18446744073709551616, (v.q1 + n) % 18446744073709551616,
   (v.q2 + n) % 18446744073709551616, (v.q3 + n) % 18446744073709551616⟩

/-- Memory after `n` consecutive chunk stores starting at `a`, the `k`-th
storing `v` with `k` added to every lane. -/
def chunksWritten (mem : Mem) (a : Nat) (v : M256i) (n : Nat) : Mem :=
  fun x => if a ≤ x ∧ x < a + 32 * n then (v.addLanes ((x - a) / 32)).byte ((x - a) % 32)
    else mem x

/-- State reached from `s` after `k` statement groups of the loop body, `r`
of its rounds being complete. -/
def afterStores (s : Locals) (k r : Nat) : Locals :=
  { mem := chunksWritten s.mem s.addr s.ymm0 k
    ymm0 := s.ymm0.addLanes k
    addr := (s.addr + 32 * k) % 18446744073709551616
    i := s.i + k
    stores := s.stores ++ (List.range k).map (fun n => s.addr + 32 * n)
    rounds := s.rounds + r }

/-- The chunk addresses of a region of `blocks` chunks at `base`, in
ascending order. -/
def chunkAddrs (base blocks : Nat) : List Nat :=
  (List.range blocks).map (fun k => base + 32 * k)

/-- Effect of one complete pass over a region of `blocks` chunks at `base`. -/
def onePass (base blocks : Nat) (s : Locals) : Locals :=
  afterStores { s with addr := base, i := 0 } blocks (blocks / 4)

/-- Effect of `p` complete passes. -/
def passes (base blocks : Nat) : Nat → Locals → Locals
  | 0, s => s
  | p + 1, s => passes base blocks p (onePass base blocks s)

/-- Reader state reached from `s` after `k` statement groups of the reader
loop body, reading from `mem`. -/
def afterLoads (mem : Mem) (s : RLocals) (k : Nat) : RLocals :=
  { ymm0 := if k = 0 then s.ymm0
      else _mm256_loadu_si256 mem ((s.addr + 32 * (k - 1)) % 18446744073709551616)
    addr := (s.addr + 32 * k) % 18446744073709551616
    i := s.i + k
    loads := s.loads ++ (List.range k).map (fun n => (s.addr + 32 * n) % 18446744073709551616) }

/-- Number of rounds of the reader `while` loop for a block count `blocks`. -/
def readerRounds (blocks : Int) : Nat := ((blocks + 1) / 2).toNat

/-- Addresses loaded by one read sweep from `base`. -/
def sweepLoads (base : Nat) (blocks : Int) : List Nat :=
  (List.range (2 * readerRounds blocks)).map
    (fun n => (base % 18446744073709551616 + 32 * n) % 18446744073709551616)

/-- Elapsed microseconds measured in iteration `j` of the reader loop. -/
def sampleUs (clock : Nat → Timeval) (j : Nat) : Nat :=
  elapsedUs (clock (2 * j)) (clock (2 * j + 1))

/-- Step `n` of the writer schedule: `a = 128 + 256*n`. -/
def stepCall (n : Nat) : Call :=
  { a := ((128 + 256 * n : Nat) : Int)
    alloc_size := (128 + 256 * n) * 1024
    iterations := ((262144 / (128 + 256 * n) : Nat) : Int) }

/-- The vector loaded from `data` once `main` has filled it with `0xaa`:
every lane is `0xAAAAAAAAAAAAAAAA`. -/
def pattern : M256i :=
  ⟨12297829382473034410, 12297829382473034410, 12297829382473034410, 12297829382473034410⟩

/-- A vector with all four lanes equal to `x`. -/
def splat (x : Nat) : M256i := ⟨x, x, x, x⟩

/-- The chunks of a region of `blocks` chunks at `base`, read back in order. -/
def readBack (mem : Mem) (base blocks : Nat) : List M256i :=
  (List.range blocks).map (fun k => _mm256_loadu_si256 mem (base + 32 * k))

/-- A memory holding zero everywhere. -/
def zeroMem : Mem := fun _ => 0

/-- The store trace the specification describes for a region of `S` bytes at
`base` and `I` passes: every pass stores to the `S/32` chunk addresses
`base + 32*k` in order. -/
def StoresEveryChunkOnce (dat mem : Mem) (base S : Nat) (I : Int) : Prop :=
  ∃ s, storeLoops dat mem (some base) S I = .ok s ∧
    s.stores = (List.replicate I.toNat (chunkAddrs base (S / 32))).flatten

/-- The region contents the specification describes after the write sweep:
the pattern, `S/32` times. -/
def RegionHoldsPattern (mem : Mem) (base S : Nat) (I : Int) : Prop :=
  ∃ s, storeLoops data mem (some base) S I = .ok s ∧
    readBack s.mem base (S / 32) = List.replicate (S / 32) pattern

/-- The region contents after the store loops with the increments taken into
account: chunk `k` holds four lanes equal to `(P + (I-1)*B + k) mod 2^64`,
`P` being the lane of the pattern and `B = S/32`. -/
def ChunksHoldCounter (mem : Mem) (base S : Nat) (I : Int) : Prop :=
  ∃ s, storeLoops data mem (some base) S I = .ok s ∧
    ∀ k, k < S / 32 → _mm256_loadu_si256 s.mem (base + 32 * k)
      = splat ((12297829382473034410 + ((I.toNat - 1) * (S / 32) + k)) % 18446744073709551616)

/-- A catalog in which the region is absent at the first lookup and published
at address 4096 by the time of any later lookup. -/
def lateLookup (k : Nat) : Option Nat := if k = 0 then none else some 4096

/-- A catalog in which the region is published at address 4096 throughout. -/
def foundLookup (_k : Nat) : Option Nat := some 4096

/-- A clock that advances by one microsecond at every call. -/
def tickClock (k : Nat) : Timeval := { tv_sec := 0, tv_usec := (k : Int) }

/-- A clock that returns the same time at every call. -/
def frozenClock (_k : Nat) : Timeval := { tv_sec := 0, tv_usec := 0 }

/-! ## Vectors and memory: basic facts -/

theorem le_bytes (q : Nat) (h : q < 18446744073709551616) :
    q % 256 + (q / 256 % 256) * 256 + (q / 65536 % 256) * 65536
      + (q / 16777216 % 256) * 16777216 + (q / 4294967296 % 256) * 4294967296
      + (q / 1099511627776 % 256) * 1099511627776
      + (q / 281474976710656 % 256) * 281474976710656
      + (q / 72057594037927936 % 256) * 72057594037927936 = q := by
  omega

theorem storeu_inside (mem : Mem) (a : Nat) (v : M256i) (j : Nat) (hj : j < 32) :
    _mm256_storeu_si256 mem a v (a + j) = v.byte j := by
  simp [_mm256_storeu_si256, hj]

theorem storeu_outside (mem : Mem) (a : Nat) (v : M256i) (x : Nat)
    (hx : x < a ∨ a + 32 ≤ x) : _mm256_storeu_si256 mem a v x = mem x := by
  unfold _mm256_storeu_si256
  rw [if_neg]
  omega

theorem read64_lt (mem : Mem) (a : Nat) : read64 mem a < 18446744073709551616 := by
  unfold read64
  norm_num
  omega

theorem loadu_wf (mem : Mem) (a : Nat) : (_mm256_loadu_si256 mem a).wf :=
  ⟨read64_lt _ _, read64_lt _ _, read64_lt _ _, read64_lt _ _⟩

theorem read64_of_bytes (mem : Mem) (a q : Nat) (h : q < 18446744073709551616)
    (hb : ∀ b, b < 8 → mem (a + b) = q / 256 ^ b % 256) : read64 mem a = q := by
  have e := le_bytes q h
  have b0 := hb 0 (by norm_num)
  have b1 := hb 1 (by norm_num)
  have b2 := hb 2 (by norm_num)
  have b3 := hb 3 (by norm_num)
  have b4 := hb 4 (by norm_num)
  have b5 := hb 5 (by norm_num)
  have b6 := hb 6 (by norm_num)
  have b7 := hb 7 (by norm_num)
  simp only [Nat.add_zero] at b0
  unfold read64
  rw [b0, b1, b2, b3, b4, b5, b6, b7]
  norm_num
  norm_num at e
  omega

theorem byte_split (v : M256i) (l b : Nat) (hb : b < 8) :
    v.byte (8 * l + b) = v.lane l / 256 ^ b % 256 := by
  unfold M256i.byte
  have h1 : (8 * l + b) / 8 = l := by omega
  have h2 : (8 * l + b) % 8 = b := by omega
  rw [h1, h2]

theorem read64_storeu (mem : Mem) (a : Nat) (v : M256i) (l : Nat) (hl : l < 4)
    (hv : v.lane l < 18446744073709551616) :
    read64 (_mm256_storeu_si256 mem a v) (a + 8 * l) = v.lane l := by
  apply read64_of_bytes _ _ _ hv
  intro b hb
  rw [Nat.add_assoc, storeu_inside mem a v (8 * l + b) (by omega), byte_split v l b hb]

theorem loadu_storeu (mem : Mem) (a : Nat) (v : M256i) (hv : v.wf) :
    _mm256_loadu_si256 (_mm256_storeu_si256 mem a v) a = v := by
  obtain ⟨h0, h1, h2, h3⟩ := hv
  have e0 := read64_storeu mem a v 0 (by norm_num) h0
  have e1 := read64_storeu mem a v 1 (by norm_num) h1
  have e2 := read64_storeu mem a v 2 (by norm_num) h2
  have e3 := read64_storeu mem a v 3 (by norm_num) h3
  simp only [Nat.mul_zero, Nat.add_zero, Nat.mul_one] at e0 e1
  norm_num at e2 e3
  unfold _mm256_loadu_si256
  rw [e0, e1, e2, e3]
  rfl

theorem read64_congr (m1 m2 : Mem) (a : Nat) (h : ∀ b, b < 8 → m1 (a + b) = m2 (a + b)) :
    read64 m1 a = read64 m2 a := by
  have b0 := h 0 (by norm_num)
  simp only [Nat.add_zero] at b0
  unfold read64
  rw [b0, h 1 (by norm_num), h 2 (by norm_num), h 3 (by norm_num), h 4 (by norm_num),
    h 5 (by norm_num), h 6 (by norm_num), h 7 (by norm_num)]

theorem loadu_congr (m1 m2 : Mem) (a : Nat) (h : ∀ j, j < 32 → m1 (a + j) = m2 (a + j)) :
    _mm256_loadu_si256 m1 a = _mm256_loadu_si256 m2 a := by
  unfold _mm256_loadu_si256
  have e0 : read64 m1 a = read64 m2 a := read64_congr m1 m2 a (fun b hb => h b (by omega))
  have e1 : read64 m1 (a + 8) = read64 m2 (a + 8) :=
    read64_congr m1 m2 (a + 8) (fun b hb => by rw [Nat.add_assoc]; exact h (8 + b) (by omega))
  have e2 : read64 m1 (a + 16) = read64 m2 (a + 16) :=
    read64_congr m1 m2 (a + 16) (fun b hb => by rw [Nat.add_assoc]; exact h (16 + b) (by omega))
  have e3 : read64 m1 (a + 24) = read64 m2 (a + 24) :=
    read64_congr m1 m2 (a + 24) (fun b hb => by rw [Nat.add_assoc]; exact h (24 + b) (by omega))
  rw [e0, e1, e2, e3]

theorem addLanes_wf (v : M256i) (n : Nat) : (v.addLanes n).wf := by
  unfold M256i.addLanes M256i.wf
  refine ⟨?_, ?_, ?_, ?_⟩ <;> exact Nat.mod_lt _ (by norm_num)

theorem addLanes_zero (v : M256i) (hv : v.wf) : v.addLanes 0 = v := by
  obtain ⟨h0, h1, h2, h3⟩ := hv
  unfold M256i.addLanes
  simp only [Nat.add_zero, Nat.mod_eq_of_lt h0, Nat.mod_eq_of_lt h1, Nat.mod_eq_of_lt h2,
    Nat.mod_eq_of_lt h3]

theorem addLanes_add (v : M256i) (m n : Nat) : (v.addLanes m).addLanes n = v.addLanes (m + n) := by
  unfold M256i.addLanes
  simp only [Nat.add_assoc, Nat.mod_add_mod]

theorem incr_addLanes (v : M256i) (n : Nat) : (v.addLanes n).incr = v.addLanes (n + 1) := by
  unfold M256i.incr M256i.addLanes
  simp only [Nat.add_assoc, Nat.mod_add_mod]

theorem loadu_chunksWritten (mem : Mem) (a : Nat) (v : M256i) (n k : Nat) (hk : k < n) :
    _mm256_loadu_si256 (chunksWritten mem a v n) (a + 32 * k) = v.addLanes k := by
  rw [← loadu_storeu mem (a + 32 * k) (v.addLanes k) (addLanes_wf v k)]
  apply loadu_congr
  intro j hj
  rw [storeu_inside _ _ _ _ hj]
  unfold chunksWritten
  have h1 : (a + 32 * k + j - a) / 32 = k := by omega
  have h2 : (a + 32 * k + j - a) % 32 = j := by omega
  rw [if_pos (by omega), h1, h2]

theorem chunksWritten_outside (mem : Mem) (a : Nat) (v : M256i) (n x : Nat)
    (hx : x < a ∨ a + 32 * n ≤ x) : chunksWritten mem a v n x = mem x := by
  unfold chunksWritten
  rw [if_neg]
  omega

theorem chunksWritten_zero (mem : Mem) (a : Nat) (v : M256i) : chunksWritten mem a v 0 = mem := by
  funext x
  exact chunksWritten_outside mem a v 0 x (by omega)

theorem chunksWritten_succ (mem : Mem) (a : Nat) (v : M256i) (n : Nat) :
    _mm256_storeu_si256 (chunksWritten mem a v n) (a + 32 * n) (v.addLanes n)
      = chunksWritten mem a v (n + 1) := by
  funext x
  unfold _mm256_storeu_si256 chunksWritten
  by_cases h : a + 32 * n ≤ x ∧ x < a + 32 * n + 32
  · have h1 : (x - a) / 32 = n := by omega
    have h2 : (x - a) % 32 = x - (a + 32 * n) := by omega
    rw [if_pos h, if_pos (by omega), h1, h2]
  · rw [if_neg h]
    by_cases h3 : a ≤ x ∧ x < a + 32 * n
    · rw [if_pos h3, if_pos (by omega)]
    · rw [if_neg h3, if_neg (by omega)]

theorem afterStores_zero (s : Locals) (hv : s.ymm0.wf) (ha : s.addr < 18446744073709551616) :
    afterStores s 0 0 = s := by
  unfold afterStores
  simp [chunksWritten_zero, addLanes_zero _ hv, Nat.mod_eq_of_lt ha]

theorem storeAdvance_afterStores (s : Locals) (k r : Nat)
    (ha : s.addr + 32 * (k + 1) ≤ 18446744073709551616) (hi : s.i + k + 1 ≤ INT_MAX) :
    storeAdvance (afterStores s k r) = .ok (afterStores s (k + 1) r) := by
  have hm : (s.addr + 32 * k) % 18446744073709551616 = s.addr + 32 * k :=
    Nat.mod_eq_of_lt (by omega)
  unfold storeAdvance
  rw [if_neg (by simp only [afterStores]; omega)]
  simp only [afterStores, hm, chunksWritten_succ, incr_addLanes, chunk_size, List.range_succ,
    List.map_append, List.map_cons, List.map_nil, List.append_assoc]
  congr 2
  push_cast
  ring

theorem whileBody_afterStores (s : Locals) (k r : Nat)
    (ha : s.addr + 32 * (k + 4) ≤ 18446744073709551616) (hi : s.i + k + 4 ≤ INT_MAX) :
    whileBody (afterStores s k r) = .ok (afterStores s (k + 4) (r + 1)) := by
  unfold whileBody
  rw [storeAdvance_afterStores s k r (by omega) (by omega)]
  simp only
  rw [storeAdvance_afterStores s (k + 1) r (by omega) (by push_cast; omega)]
  simp only
  rw [storeAdvance_afterStores s (k + 2) r (by omega) (by push_cast; omega)]
  simp only
  rw [storeAdvance_afterStores s (k + 3) r (by omega) (by push_cast; omega)]
  rfl

theorem whileLoop_afterStores (blocks m : Nat) (hB : blocks = 4 * m) (hlt : blocks < 2147483648)
    (s : Locals) (hi : s.i = 0) (ha : s.addr + 32 * blocks ≤ 18446744073709551616) :
    ∀ d r fuel, r + d = m → d ≤ fuel →
      whileLoop blocks fuel (afterStores s (4 * r) r) = .ok (afterStores s (4 * m) m) := by
  intro d
  induction d with
  | zero =>
    intro r fuel hr _
    have hrm : r = m := by omega
    subst hrm
    have hc : ¬ toU64 (afterStores s (4 * r) r).i < blocks := by
      simp only [afterStores, toU64, hi]
      omega
    cases fuel with
    | zero => simp only [whileLoop, if_neg hc]
    | succ f => simp only [whileLoop, if_neg hc]
  | succ d ih =>
    intro r fuel hr hf
    have hc : toU64 (afterStores s (4 * r) r).i < blocks := by
      simp only [afterStores, toU64, hi]
      omega
    cases fuel with
    | zero => omega
    | succ f =>
      simp only [whileLoop, if_pos hc]
      rw [whileBody_afterStores s (4 * r) r (by omega)
        (by rw [hi]; unfold INT_MAX; push_cast; omega)]
      simp only
      have := ih (r + 1) f (by omega) (by omega)
      rw [show 4 * (r + 1) = 4 * r + 4 by ring] at this
      exact this

theorem whileLoop_onePass (base blocks : Nat) (h4 : blocks % 4 = 0) (hlt : blocks < 2147483648)
    (ha : base + 32 * blocks < 18446744073709551616) (s : Locals) (hv : s.ymm0.wf) :
    whileLoop blocks blocks { s with addr := base % 18446744073709551616, i := 0 }
      = .ok (onePass base blocks s) := by
  have hb : base % 18446744073709551616 = base := Nat.mod_eq_of_lt (by omega)
  rw [hb]
  have hm : blocks = 4 * (blocks / 4) := by omega
  have key := whileLoop_afterStores blocks (blocks / 4) hm hlt
    { s with addr := base, i := 0 } rfl (by simp only; omega) (blocks / 4) 0 blocks
    (by omega) (by omega)
  rw [Nat.mul_zero, afterStores_zero { s with addr := base, i := 0 } hv (by simp only; omega),
    ← hm] at key
  exact key

theorem forLoop_passes (base blocks : Nat) (h4 : blocks % 4 = 0) (hlt : blocks < 2147483648)
    (ha : base + 32 * blocks < 18446744073709551616) (iterations : Int) :
    ∀ fuel j s, (iterations - j).toNat ≤ fuel → s.ymm0.wf →
      forLoop (some base) blocks iterations fuel j s
        = .ok (passes base blocks (iterations - j).toNat s) := by
  intro fuel
  induction fuel with
  | zero =>
    intro j s hf _
    have hj : ¬ j < iterations := by omega
    have h0 : (iterations - j).toNat = 0 := by omega
    simp only [forLoop, if_neg hj, h0, passes]
  | succ f ih =>
    intro j s hf hv
    by_cases hj : j < iterations
    · simp only [forLoop, if_pos hj]
      rw [whileLoop_onePass base blocks h4 hlt ha s hv]
      simp only
      rw [ih (j + 1) (onePass base blocks s) (by omega) (addLanes_wf _ _)]
      have hs : (iterations - j).toNat = (iterations - (j + 1)).toNat + 1 := by omega
      rw [hs]
      rfl
    · have h0 : (iterations - j).toNat = 0 := by omega
      simp only [forLoop, if_neg hj, h0, passes]

theorem passes_ymm0 (base blocks : Nat) :
    ∀ p s, s.ymm0.wf → (passes base blocks p s).ymm0 = s.ymm0.addLanes (p * blocks) := by
  intro p
  induction p with
  | zero => intro s hv; simp only [passes, Nat.zero_mul, addLanes_zero _ hv]
  | succ p ih =>
    intro s _
    simp only [passes]
    rw [ih _ (addLanes_wf _ _)]
    simp only [onePass, afterStores, addLanes_add]
    congr 1
    ring

theorem passes_stores (base blocks : Nat) :
    ∀ p s, (passes base blocks p s).stores
      = s.stores ++ (List.replicate p (chunkAddrs base blocks)).flatten := by
  intro p
  induction p with
  | zero => intro s; simp [passes]
  | succ p ih =>
    intro s
    simp only [passes]
    rw [ih]
    simp [onePass, afterStores, chunkAddrs, List.replicate_succ]

theorem passes_rounds (base blocks : Nat) :
    ∀ p s, (passes base blocks p s).rounds = s.rounds + p * (blocks / 4) := by
  intro p
  induction p with
  | zero => intro s; simp [passes]
  | succ p ih =>
    intro s
    simp only [passes]
    rw [ih]
    simp only [onePass, afterStores]
    ring

theorem passes_mem_outside (base blocks x : Nat) (hx : x < base ∨ base + 32 * blocks ≤ x) :
    ∀ p s, (passes base blocks p s).mem x = s.mem x := by
  intro p
  induction p with
  | zero => intro s; rfl
  | succ p ih =>
    intro s
    simp only [passes]
    rw [ih]
    simp only [onePass, afterStores]
    exact chunksWritten_outside _ _ _ _ _ hx

theorem passes_mem_chunk (base blocks k : Nat) (hk : k < blocks) :
    ∀ p s, s.ymm0.wf → _mm256_loadu_si256 (passes base blocks (p + 1) s).mem (base + 32 * k)
      = s.ymm0.addLanes (p * blocks + k) := by
  intro p
  induction p with
  | zero =>
    intro s _
    simp only [passes, onePass, afterStores, Nat.zero_mul, Nat.zero_add]
    exact loadu_chunksWritten _ _ _ _ _ hk
  | succ p ih =>
    intro s _
    have h := ih (onePass base blocks s) (addLanes_wf _ _)
    simp only [passes] at h ⊢
    rw [h]
    simp only [onePass, afterStores, addLanes_add]
    congr 1
    ring
/-! ## Overflow of the loop counter -/

theorem whileLoop_overflow (blocks : Nat) (hB : 2147483645 ≤ blocks)
    (s : Locals) (hi : s.i = 0) (ha : s.addr + 68719476736 ≤ 18446744073709551616) :
    ∀ d r fuel, r + d = 536870911 → d < fuel →
      whileLoop blocks fuel (afterStores s (4 * r) r) = .error .signedOverflow := by
  intro d
  induction d with
  | zero =>
    intro r fuel hr hf
    have hc : toU64 (afterStores s (4 * r) r).i < blocks := by
      simp only [afterStores, toU64, hi]
      omega
    cases fuel with
    | zero => omega
    | succ f =>
      simp only [whileLoop, if_pos hc]
      unfold whileBody
      rw [storeAdvance_afterStores s (4 * r) r (by omega)
        (by rw [hi]; unfold INT_MAX; push_cast; omega)]
      simp only
      rw [storeAdvance_afterStores s (4 * r + 1) r (by omega)
        (by rw [hi]; unfold INT_MAX; push_cast; omega)]
      simp only
      rw [storeAdvance_afterStores s (4 * r + 2) r (by omega)
        (by rw [hi]; unfold INT_MAX; push_cast; omega)]
      simp only
      have he : storeAdvance (afterStores s (4 * r + 2 + 1) r) = .error .signedOverflow := by
        unfold storeAdvance
        rw [if_pos (by simp only [afterStores, hi]; unfold INT_MAX; push_cast; omega)]
      rw [he]
  | succ d ih =>
    intro r fuel hr hf
    have hc : toU64 (afterStores s (4 * r) r).i < blocks := by
      simp only [afterStores, toU64, hi]
      omega
    cases fuel with
    | zero => omega
    | succ f =>
      simp only [whileLoop, if_pos hc]
      rw [whileBody_afterStores s (4 * r) r (by omega)
        (by rw [hi]; unfold INT_MAX; push_cast; omega)]
      simp only
      have := ih (r + 1) f (by omega) (by omega)
      rw [show 4 * (r + 1) = 4 * r + 4 by ring] at this
      exact this

theorem forLoop_overflow (base blocks : Nat) (hB : 2147483645 ≤ blocks)
    (ha : base + 68719476736 ≤ 18446744073709551616) (iterations : Int) (fuel : Nat) (j : Int)
    (hj : j < iterations) (s : Locals) (hv : s.ymm0.wf) :
    forLoop (some base) blocks iterations (fuel + 1) j s = .error .signedOverflow := by
  have hb : base % 18446744073709551616 = base := Nat.mod_eq_of_lt (by omega)
  have key := whileLoop_overflow blocks hB { s with addr := base, i := 0 } rfl
    (by simp only; omega) 536870911 0 blocks (by omega) (by omega)
  rw [Nat.mul_zero, afterStores_zero { s with addr := base, i := 0 } hv (by simp only; omega)]
    at key
  simp only [forLoop, if_pos hj, hb, key]

/-! ## The writer schedule -/

theorem writerFor_eq : ∀ d k, k + d = 4096 →
    writerFor d (((128 + 256 * k : Nat) : Int)) = .ok ((List.range' k d).map stepCall) := by
  intro d
  induction d with
  | zero =>
    intro k hk
    have hk : k = 4096 := by omega
    subst hk
    simp [writerFor]
  | succ d ih =>
    intro k hk
    have hlt : ((128 + 256 * k : Nat) : Int) < 1048576 := by omega
    have hmul : intMul ((128 + 256 * k : Nat) : Int) 1024
        = .ok (((128 + 256 * k) * 1024 : Nat) : Int) := by
      have e : ((128 + 256 * k : Nat) : Int) * 1024 = (((128 + 256 * k) * 1024 : Nat) : Int) := by
        push_cast
        ring
      unfold intMul INT_MAX
      rw [if_neg (by push_cast; omega), e]
    have hdiv : intDiv 262144 ((128 + 256 * k : Nat) : Int)
        = .ok ((262144 / (128 + 256 * k) : Nat) : Int) := by
      unfold intDiv INT_MAX
      have e : Int.tdiv 262144 ((128 + 256 * k : Nat) : Int)
          = ((262144 / (128 + 256 * k) : Nat) : Int) := (Int.ofNat_tdiv 262144 _).symm
      have hle : 262144 / (128 + 256 * k) ≤ 262144 := Nat.div_le_self _ _
      rw [if_neg (by omega), e, if_neg (by omega)]
    have hadd : intAdd ((128 + 256 * k : Nat) : Int) 256
        = .ok ((128 + 256 * (k + 1) : Nat) : Int) := by
      have e : ((128 + 256 * k : Nat) : Int) + 256 = ((128 + 256 * (k + 1) : Nat) : Int) := by
        push_cast
        ring
      unfold intAdd INT_MAX
      rw [if_neg (by push_cast; omega), e]
    have hu : toU64 (((128 + 256 * k) * 1024 : Nat) : Int) = (128 + 256 * k) * 1024 := by
      unfold toU64
      omega
    simp only [writerFor, if_pos hlt, hmul, hdiv, hadd, ih (k + 1) (by omega), hu,
      List.range'_succ, List.map_cons, stepCall]

theorem writerSchedule_eq : writerSchedule = .ok ((List.range 4096).map stepCall) := by
  have h := writerFor_eq 4096 0 (by norm_num)
  rw [List.range_eq_range']
  exact h

/-! ## The reader loops -/

theorem afterLoads_zero (mem : Mem) (s : RLocals) (ha : s.addr < 18446744073709551616) :
    afterLoads mem s 0 = s := by
  unfold afterLoads
  simp [Nat.mod_eq_of_lt ha]

theorem loadAdvance_afterLoads (mem : Mem) (s : RLocals) (k : Nat)
    (hi : s.i + k + 1 ≤ INT_MAX) :
    loadAdvance mem (afterLoads mem s k) = .ok (afterLoads mem s (k + 1)) := by
  unfold loadAdvance
  rw [if_neg (by simp only [afterLoads]; omega)]
  have h1 : ((s.addr + 32 * k) % 18446744073709551616 + chunk_size) % 18446744073709551616
      = (s.addr + 32 * (k + 1)) % 18446744073709551616 := by
    unfold chunk_size
    omega
  have h2 : s.i + (k : Int) + 1 = s.i + ((k + 1 : Nat) : Int) := by
    push_cast
    ring
  simp only [afterLoads, h1, h2, List.range_succ, List.map_append, List.map_cons, List.map_nil,
    List.append_assoc, Nat.add_sub_cancel, Nat.succ_ne_zero, if_false]

theorem readerBody_afterLoads (mem : Mem) (s : RLocals) (k : Nat)
    (hi : s.i + k + 2 ≤ INT_MAX) :
    readerBody mem (afterLoads mem s k) = .ok (afterLoads mem s (k + 2)) := by
  unfold readerBody
  rw [loadAdvance_afterLoads mem s k (by omega)]
  simp only
  rw [loadAdvance_afterLoads mem s (k + 1) (by push_cast; omega)]

theorem readerWhile_afterLoads (mem : Mem) (blocks : Int) (hlt : blocks < INT_MAX)
    (s : RLocals) (hi : s.i = 0) :
    ∀ d r fuel, r + d = readerRounds blocks → d ≤ fuel →
      readerWhile mem blocks fuel (afterLoads mem s (2 * r))
        = .ok (afterLoads mem s (2 * readerRounds blocks)) := by
  unfold INT_MAX at hlt
  intro d
  induction d with
  | zero =>
    intro r fuel hr _
    have hrm : r = readerRounds blocks := by omega
    subst hrm
    have hc : ¬ (afterLoads mem s (2 * readerRounds blocks)).i < blocks := by
      simp only [afterLoads, hi, readerRounds]
      omega
    cases fuel with
    | zero => simp only [readerWhile, if_neg hc]
    | succ f => simp only [readerWhile, if_neg hc]
  | succ d ih =>
    intro r fuel hr hf
    have hc : (afterLoads mem s (2 * r)).i < blocks := by
      simp only [afterLoads, hi]
      unfold readerRounds at hr
      omega
    cases fuel with
    | zero => omega
    | succ f =>
      simp only [readerWhile, if_pos hc]
      rw [readerBody_afterLoads mem s (2 * r)
        (by rw [hi]; unfold INT_MAX; unfold readerRounds at hr; push_cast; omega)]
      simp only
      have := ih (r + 1) f (by omega) (by omega)
      rw [show 2 * (r + 1) = 2 * r + 2 by ring] at this
      exact this

theorem readerWhile_sweep (mem : Mem) (blocks : Int) (hlt : blocks < INT_MAX) (base : Nat)
    (y : M256i) :
    ∃ y1, readerWhile mem blocks blocks.toNat
        { ymm0 := y, addr := base % 18446744073709551616, i := 0, loads := [] }
      = .ok { ymm0 := y1
              addr := (base % 18446744073709551616 + 32 * (2 * readerRounds blocks))
                % 18446744073709551616
              i := ((2 * readerRounds blocks : Nat) : Int)
              loads := sweepLoads base blocks } := by
  have hb : base % 18446744073709551616 < 18446744073709551616 := Nat.mod_lt _ (by norm_num)
  have key := readerWhile_afterLoads mem blocks hlt
    { ymm0 := y, addr := base % 18446744073709551616, i := 0, loads := [] } rfl
    (readerRounds blocks) 0 blocks.toNat (by omega) (by unfold readerRounds; omega)
  rw [Nat.mul_zero, afterLoads_zero mem _ hb] at key
  rw [key]
  refine ⟨(afterLoads mem { ymm0 := y, addr := base % 18446744073709551616, i := 0, loads := [] }
    (2 * readerRounds blocks)).ymm0, ?_⟩
  simp only [afterLoads, sweepLoads, List.nil_append, Int.zero_add]

theorem readerFor_ok (mem : Mem) (base : Nat) (clock : Nat → Timeval) (alloc_size : Nat)
    (blocks : Int) (hlt : blocks < INT_MAX) :
    ∀ n j r, (∀ k, j ≤ k → k < j + n → sampleUs clock k ≠ 0) →
      ∃ y, readerFor mem (some base) clock alloc_size blocks n j r
        = .ok { ymm0 := y
                lines := r.lines ++ (List.range' j n).map
                  (fun k => (alloc_size / sampleUs clock k, sampleUs clock k))
                sweeps := r.sweeps ++ List.replicate n (sweepLoads base blocks) } := by
  intro n
  induction n with
  | zero =>
    intro j r _
    exact ⟨r.ymm0, by simp [readerFor]⟩
  | succ n ih =>
    intro j r h
    obtain ⟨y1, hw⟩ := readerWhile_sweep mem blocks hlt base r.ymm0
    have hz : ¬ elapsedUs (clock (2 * j)) (clock (2 * j + 1)) = 0 :=
      h j (Nat.le_refl j) (by omega)
    obtain ⟨y2, hr⟩ := ih (j + 1)
      { ymm0 := y1
        lines := r.lines ++
          [(alloc_size / elapsedUs (clock (2 * j)) (clock (2 * j + 1)),
            elapsedUs (clock (2 * j)) (clock (2 * j + 1)))]
        sweeps := r.sweeps ++ [sweepLoads base blocks] }
      (fun k hk1 hk2 => h k (by omega) (by omega))
    refine ⟨y2, ?_⟩
    simp only [readerFor, hw, if_neg hz, hr]
    simp [List.range'_succ, List.replicate_succ, sampleUs]
/-! ## Completion of the store loops for every block count up to `2^31 - 4` -/

theorem storeAdvance_returns (s : Locals) (h : s.i + 1 ≤ INT_MAX) :
    ∃ s1, storeAdvance s = .ok s1 ∧ s1.i = s.i + 1 := by
  unfold storeAdvance
  rw [if_neg (by omega)]
  exact ⟨_, rfl, rfl⟩

theorem whileBody_returns (s : Locals) (h : s.i + 4 ≤ INT_MAX) :
    ∃ s1, whileBody s = .ok s1 ∧ s1.i = s.i + 4 := by
  obtain ⟨s1, h1, i1⟩ := storeAdvance_returns s (by omega)
  obtain ⟨s2, h2, i2⟩ := storeAdvance_returns s1 (by omega)
  obtain ⟨s3, h3, i3⟩ := storeAdvance_returns s2 (by omega)
  obtain ⟨s4, h4, i4⟩ := storeAdvance_returns s3 (by omega)
  refine ⟨{ s4 with rounds := s4.rounds + 1 }, ?_, ?_⟩
  · unfold whileBody
    rw [h1]
    simp only
    rw [h2]
    simp only
    rw [h3]
    simp only
    rw [h4]
  · simp only
    omega

theorem whileLoop_returns (blocks : Nat) (hB : blocks ≤ 2147483644) :
    ∀ fuel s, 0 ≤ s.i → s.i ≤ 2147483647 → (blocks - s.i.toNat + 3) / 4 ≤ fuel →
      ∃ s1, whileLoop blocks fuel s = .ok s1 := by
  intro fuel
  induction fuel with
  | zero =>
    intro s h0 hm hf
    have hc : ¬ toU64 s.i < blocks := by
      unfold toU64
      omega
    exact ⟨s, by simp only [whileLoop, if_neg hc]⟩
  | succ f ih =>
    intro s h0 hm hf
    by_cases hc : toU64 s.i < blocks
    · have hi : s.i + 4 ≤ INT_MAX := by
        unfold toU64 at hc
        unfold INT_MAX
        omega
      obtain ⟨s1, h1, i1⟩ := whileBody_returns s hi
      obtain ⟨s2, h2⟩ := ih s1 (by omega) (by unfold INT_MAX at hi; omega)
        (by rw [i1]; unfold toU64 at hc; omega)
      exact ⟨s2, by simp only [whileLoop, if_pos hc, h1, h2]⟩
    · exact ⟨s, by simp only [whileLoop, if_neg hc]⟩

theorem forLoop_returns (base blocks : Nat) (hB : blocks ≤ 2147483644) (iterations : Int) :
    ∀ fuel j s, (iterations - j).toNat ≤ fuel →
      ∃ s1, forLoop (some base) blocks iterations fuel j s = .ok s1 := by
  intro fuel
  induction fuel with
  | zero =>
    intro j s hf
    have hj : ¬ j < iterations := by omega
    exact ⟨s, by simp only [forLoop, if_neg hj]⟩
  | succ f ih =>
    intro j s hf
    by_cases hj : j < iterations
    · obtain ⟨s1, h1⟩ := whileLoop_returns blocks hB blocks
        { s with addr := base % 18446744073709551616, i := 0 } (by simp only; omega)
        (by simp only; omega) (by simp only; omega)
      obtain ⟨s2, h2⟩ := ih (j + 1) s1 (by omega)
      exact ⟨s2, by simp only [forLoop, if_pos hj, h1, h2]⟩
    · exact ⟨s, by simp only [forLoop, if_neg hj]⟩

theorem evaluateBandwidth_returns (dat : Mem) (tsc_rate : Nat) (mem : Mem)
    (base c alloc_size : Nat) (sock I : Int) (hB : alloc_size / 32 ≤ 2147483644) :
    ∃ s, evaluateBandwidth dat tsc_rate mem (some base) c alloc_size sock I
      = .ok (s, measurement tsc_rate c alloc_size I) := by
  have hc : alloc_size / chunk_size = alloc_size / 32 := by unfold chunk_size; norm_num
  obtain ⟨s, hs⟩ := forLoop_returns base (alloc_size / 32) hB I I.toNat 0 (initLocals dat mem)
    (by omega)
  refine ⟨s, ?_⟩
  unfold evaluateBandwidth storeLoops
  rw [hc, hs]

/-! ## Shared consequences for `storeLoops` and the reader -/

theorem loadu_data : _mm256_loadu_si256 data 0 = pattern := by decide

theorem storeLoops_eq (dat mem : Mem) (base S : Nat) (I : Int) (hS : S % 128 = 0)
    (hB : S / 32 < 2147483648) (ha : base + S < 18446744073709551616) :
    storeLoops dat mem (some base) S I
      = .ok (passes base (S / 32) I.toNat (initLocals dat mem)) := by
  unfold storeLoops
  have hc : S / chunk_size = S / 32 := by unfold chunk_size; norm_num
  rw [hc]
  have h := forLoop_passes base (S / 32) (by omega) hB (by omega) I I.toNat 0
    (initLocals dat mem) (by omega) (loadu_wf dat 0)
  rw [h]
  simp

theorem storeLoops_overflow (dat mem : Mem) (base S : Nat) (I : Int)
    (hB : 2147483645 ≤ S / 32) (ha : base + 68719476736 ≤ 18446744073709551616) (hI : 1 ≤ I) :
    storeLoops dat mem (some base) S I = .error .signedOverflow := by
  unfold storeLoops
  have hc : S / chunk_size = S / 32 := by unfold chunk_size; norm_num
  have ht : I.toNat = (I.toNat - 1) + 1 := by omega
  rw [hc, ht]
  exact forLoop_overflow base (S / 32) hB ha I (I.toNat - 1) 0 (by omega)
    (initLocals dat mem) (loadu_wf dat 0)

theorem chunkAddrs_length (base blocks : Nat) : (chunkAddrs base blocks).length = blocks := by
  simp [chunkAddrs]

theorem chunkAddrs_get (base blocks k : Nat) (hk : k < blocks) :
    (chunkAddrs base blocks)[k]? = some (base + 32 * k) := by
  simp [chunkAddrs, hk]

theorem chunkAddrs_nodup (base blocks : Nat) : (chunkAddrs base blocks).Nodup := by
  unfold chunkAddrs
  apply List.Nodup.map _ (List.nodup_range blocks)
  intro x y h
  simp only at h
  omega

theorem chunkAddrs_bounds (base blocks x : Nat) (hx : x ∈ chunkAddrs base blocks) :
    base ≤ x ∧ x + 32 ≤ base + 32 * blocks := by
  unfold chunkAddrs at hx
  rw [List.mem_map] at hx
  obtain ⟨k, hk, rfl⟩ := hx
  rw [List.mem_range] at hk
  omega

/-! ## The claims -/

/-- C1 as stated fails: for the chunk-aligned size `S = 32` (one chunk) and
one pass the unrolled loop body runs once and issues four stores, at
`base`, `base+32`, `base+64`, `base+96`; three of them land at or beyond
`base + S`. It also fails for the chunk-aligned size `S = 2^36 + 128`
(`2^31 + 4` chunks), where the `int` counter `i` overflows before the pass
is complete. -/
theorem C1_counterexample :
    (storeLoops data zeroMem (some 4096) 32 1).toOption.map (fun s => s.stores)
        = some [4096, 4128, 4160, 4192]
      ∧ ¬ StoresEveryChunkOnce data zeroMem 4096 32 1
      ∧ ¬ StoresEveryChunkOnce data zeroMem 4096 68719476864 1 := by
  have h : (storeLoops data zeroMem (some 4096) 32 1).toOption.map (fun s => s.stores)
      = some [4096, 4128, 4160, 4192] := by decide
  refine ⟨h, ?_, ?_⟩
  · rintro ⟨s, hs, hst⟩
    rw [hs] at h
    simp only [Except.toOption, Option.map_some', Option.some.injEq] at h
    rw [h] at hst
    revert hst
    decide
  · rintro ⟨s, hs, _⟩
    rw [storeLoops_overflow data zeroMem 4096 68719476864 1 (by norm_num) (by norm_num)
      (by norm_num)] at hs
    cases hs

/-- C1 amended: for every region size `S` that is a multiple of 128 bytes
with `S/32 < 2^31` (region inside the address space) and every iteration
count `I`, the store loops complete and each of the `I` passes issues exactly
`S/32` stores, the `k`-th at `base + 32*k`, restarting from `base` on every
pass; no chunk is skipped or visited twice in a pass and every store lies
inside `[base, base + S)`. -/
theorem C1_store_trace (dat mem : Mem) (base S : Nat) (I : Int) (hS : S % 128 = 0)
    (hB : S / 32 < 2147483648) (ha : base + S < 18446744073709551616) :
    StoresEveryChunkOnce dat mem base S I
      ∧ (chunkAddrs base (S / 32)).length = S / 32
      ∧ (∀ k, k < S / 32 → (chunkAddrs base (S / 32))[k]? = some (base + 32 * k))
      ∧ (chunkAddrs base (S / 32)).Nodup
      ∧ (∀ x, x ∈ chunkAddrs base (S / 32) → base ≤ x ∧ x + 32 ≤ base + S) := by
  refine ⟨⟨_, storeLoops_eq dat mem base S I hS hB ha, ?_⟩, chunkAddrs_length _ _,
    fun k hk => chunkAddrs_get _ _ k hk, chunkAddrs_nodup _ _, ?_⟩
  · rw [passes_stores]
    simp [initLocals]
  · intro x hx
    have := chunkAddrs_bounds base (S / 32) x hx
    omega

/-- C1 amended, at `S = 256`, `I = 3`, `base = 4096`. -/
theorem C1_store_trace_witness :
    StoresEveryChunkOnce data zeroMem 4096 256 3
      ∧ (chunkAddrs 4096 (256 / 32)).length = 256 / 32
      ∧ (∀ k, k < 256 / 32 → (chunkAddrs 4096 (256 / 32))[k]? = some (4096 + 32 * k))
      ∧ (chunkAddrs 4096 (256 / 32)).Nodup
      ∧ (∀ x, x ∈ chunkAddrs 4096 (256 / 32) → 4096 ≤ x ∧ x + 32 ≤ 4096 + 256) :=
  C1_store_trace data zeroMem 4096 256 3 (by decide) (by decide) (by decide)

/-- C2 as stated fails: after a one-pass sweep of a 128-byte region, chunk 1
holds lanes `0xAAAAAAAAAAAAAAAB`, not the pattern, because the stored vector
is incremented after every store. It also fails for the chunk-aligned size
`S = 2^36 + 128` (`2^31 + 4` chunks), where the `int` counter `i` overflows
before the first pass is complete. -/
theorem C2_counterexample :
    (storeLoops data zeroMem (some 4096) 128 1).toOption.map
        (fun s => _mm256_loadu_si256 s.mem (4096 + 32))
        = some (splat 12297829382473034411)
      ∧ ¬ RegionHoldsPattern zeroMem 4096 128 1
      ∧ ¬ RegionHoldsPattern zeroMem 4096 68719476864 1 := by
  have h : (storeLoops data zeroMem (some 4096) 128 1).toOption.map
      (fun s => readBack s.mem 4096 (128 / 32))
      = some [splat 12297829382473034410, splat 12297829382473034411,
          splat 12297829382473034412, splat 12297829382473034413] := by decide
  refine ⟨by decide, ?_, ?_⟩
  · rintro ⟨s, hs, hst⟩
    rw [hs] at h
    simp only [Except.toOption, Option.map_some', Option.some.injEq] at h
    rw [h] at hst
    revert hst
    decide
  · rintro ⟨s, hs, _⟩
    rw [storeLoops_overflow data zeroMem 4096 68719476864 1 (by norm_num) (by norm_num)
      (by norm_num)] at hs
    cases hs

/-- C2 amended: for every region size `S` that is a multiple of 128 bytes
with `S/32 < 2^31` and every iteration count `I >= 1`, after the write sweep
reading the region back returns `S/32` chunks, the `k`-th being the pattern
loaded from `data` with `(I-1)*(S/32) + k` added to each 64-bit lane modulo
`2^64` (the pattern itself only where that offset is a multiple of `2^64`). -/
theorem C2_region_contents (mem : Mem) (base S : Nat) (I : Int) (hS : S % 128 = 0)
    (hB : S / 32 < 2147483648) (ha : base + S < 18446744073709551616) (hI : 1 ≤ I) :
    ∃ s, storeLoops data mem (some base) S I = .ok s ∧
      readBack s.mem base (S / 32)
        = (List.range (S / 32)).map
            (fun k => pattern.addLanes ((I.toNat - 1) * (S / 32) + k)) := by
  refine ⟨_, storeLoops_eq data mem base S I hS hB ha, ?_⟩
  unfold readBack
  apply List.map_congr_left
  intro k hk
  rw [List.mem_range] at hk
  have hp : I.toNat = (I.toNat - 1) + 1 := by omega
  rw [hp, passes_mem_chunk base (S / 32) k hk (I.toNat - 1) (initLocals data mem)
    (loadu_wf data 0)]
  simp only [initLocals, loadu_data, Nat.add_sub_cancel]

/-- C2 amended, at `S = 256`, `I = 3`, `base = 4096`. -/
theorem C2_region_contents_witness :
    ∃ s, storeLoops data zeroMem (some 4096) 256 3 = .ok s ∧
      readBack s.mem 4096 (256 / 32)
        = (List.range (256 / 32)).map
            (fun k => pattern.addLanes (((3 : Int).toNat - 1) * (256 / 32) + k)) :=
  C2_region_contents zeroMem 4096 256 3 (by decide) (by decide) (by decide) (by decide)

/-- C10 as stated fails for large regions: with `S = 2^36 + 128` (a multiple
of 128, `B = 2^31 + 4` chunks) and `I = 1` the `int` counter `i` reaches
`INT_MAX` inside the round that starts at `i = 2^31 - 4`, and the next `i++`
overflows: the store loops have no defined final state. -/
theorem C10_counterexample :
    storeLoops data zeroMem (some 4096) 68719476864 1 = .error .signedOverflow
      ∧ ¬ ChunksHoldCounter zeroMem 4096 68719476864 1 := by
  have h : storeLoops data zeroMem (some 4096) 68719476864 1 = .error .signedOverflow :=
    storeLoops_overflow data zeroMem 4096 68719476864 1 (by norm_num) (by norm_num) (by norm_num)
  refine ⟨h, ?_⟩
  rintro ⟨s, hs, _⟩
  rw [h] at hs
  cases hs

/-- C10 amended: for every region size `S` that is a multiple of 128 bytes
with `B = S/32 < 2^31` and every iteration count `I >= 1`, after the store
loops chunk `k` of the region (`0 <= k < B`) holds four 64-bit lanes each
equal to `(P + (I-1)*B + k) mod 2^64` with `P = 0xAAAAAAAAAAAAAAAA`; the
vector variable is not reset between passes (it ends as the pattern plus
`I*B` in every lane) and the bytes outside the region are unchanged; for
`I = 0` the memory is left unchanged. -/
theorem C10_chunk_values (mem : Mem) (base S : Nat) (I : Int) (hS : S % 128 = 0)
    (hB : S / 32 < 2147483648) (ha : base + S < 18446744073709551616) (hI : 1 ≤ I) :
    ChunksHoldCounter mem base S I
      ∧ (∃ s, storeLoops data mem (some base) S I = .ok s ∧
          s.ymm0 = pattern.addLanes (I.toNat * (S / 32)) ∧
          ∀ x, x < base ∨ base + S ≤ x → s.mem x = mem x)
      ∧ (∃ s0, storeLoops data mem (some base) S 0 = .ok s0 ∧ s0.mem = mem) := by
  refine ⟨⟨_, storeLoops_eq data mem base S I hS hB ha, ?_⟩,
    ⟨_, storeLoops_eq data mem base S I hS hB ha, ?_, ?_⟩,
    ⟨_, storeLoops_eq data mem base S 0 hS hB ha, ?_⟩⟩
  · intro k hk
    have hp : I.toNat = (I.toNat - 1) + 1 := by omega
    rw [hp, passes_mem_chunk base (S / 32) k hk (I.toNat - 1) (initLocals data mem)
      (loadu_wf data 0)]
    simp only [initLocals, loadu_data, pattern, M256i.addLanes, splat, Nat.add_sub_cancel]
  · rw [passes_ymm0 base (S / 32) I.toNat (initLocals data mem) (loadu_wf data 0)]
    simp only [initLocals, loadu_data]
  · intro x hx
    rw [passes_mem_outside base (S / 32) x (by omega)]
    rfl
  · rfl

/-- C10 amended, at `S = 256`, `I = 3`, `base = 4096`. -/
theorem C10_chunk_values_witness :
    ChunksHoldCounter zeroMem 4096 256 3
      ∧ (∃ s, storeLoops data zeroMem (some 4096) 256 3 = .ok s ∧
          s.ymm0 = pattern.addLanes ((3 : Int).toNat * (256 / 32)) ∧
          ∀ x, x < 4096 ∨ 4096 + 256 ≤ x → s.mem x = zeroMem x)
      ∧ (∃ s0, storeLoops data zeroMem (some 4096) 256 0 = .ok s0 ∧ s0.mem = zeroMem) :=
  C10_chunk_values zeroMem 4096 256 3 (by decide) (by decide) (by decide) (by decide)

/-- C9: for every step `n < 4096` of the writer schedule, with
`a = 128 + 256*n` (at most 1048448): the `int` product `a*1024` does not
overflow (it is at most 1073610752), `blocks = 32*a` is a multiple of 4
below `2^31`, and for every iteration count the store loops complete without
overflow of `i`, each pass taking exactly `blocks/4` rounds and storing to
each of the `blocks` chunk addresses exactly once, all of them inside
`[base, base + a*1024)`. -/
theorem C9_schedule_step_safe (n : Nat) (hn : n < 4096) (dat mem : Mem) (base : Nat)
    (hbase : base + (128 + 256 * n) * 1024 < 18446744073709551616) (I : Int) :
    (∃ calls, writerSchedule = .ok calls ∧ calls.length = 4096 ∧
        ∃ c, calls[n]? = some c ∧ c.a = ((128 + 256 * n : Nat) : Int) ∧
          c.alloc_size = (128 + 256 * n) * 1024 ∧ intMul c.a 1024 = .ok (c.alloc_size : Int))
      ∧ 128 + 256 * n ≤ 1048448
      ∧ (128 + 256 * n) * 1024 ≤ 1073610752
      ∧ (128 + 256 * n) * 1024 / chunk_size = 32 * (128 + 256 * n)
      ∧ (32 * (128 + 256 * n)) % 4 = 0
      ∧ 32 * (128 + 256 * n) < 2147483648
      ∧ (∃ s, storeLoops dat mem (some base) ((128 + 256 * n) * 1024) I = .ok s ∧
          s.rounds = I.toNat * (32 * (128 + 256 * n) / 4) ∧
          s.stores = (List.replicate I.toNat (chunkAddrs base (32 * (128 + 256 * n)))).flatten)
      ∧ (chunkAddrs base (32 * (128 + 256 * n))).length = 32 * (128 + 256 * n)
      ∧ (chunkAddrs base (32 * (128 + 256 * n))).Nodup
      ∧ (∀ x, x ∈ chunkAddrs base (32 * (128 + 256 * n)) →
          base ≤ x ∧ x + 32 ≤ base + (128 + 256 * n) * 1024) := by
  have hblk : (128 + 256 * n) * 1024 / 32 = 32 * (128 + 256 * n) := by omega
  refine ⟨⟨_, writerSchedule_eq, by simp, stepCall n, ?_, rfl, rfl, ?_⟩, by omega, by omega,
    by unfold chunk_size; omega, by omega, by omega,
    ⟨_, storeLoops_eq dat mem base _ I (by omega) (by omega) hbase, ?_, ?_⟩,
    chunkAddrs_length _ _, chunkAddrs_nodup _ _, ?_⟩
  · rw [List.getElem?_map, List.getElem?_range hn]
    rfl
  · have e : ((128 + 256 * n : Nat) : Int) * 1024 = (((128 + 256 * n) * 1024 : Nat) : Int) := by
      push_cast
      ring
    simp only [stepCall]
    unfold intMul INT_MAX
    rw [if_neg (by push_cast; omega), e]
  · rw [passes_rounds, hblk]
    simp [initLocals]
  · rw [passes_stores, hblk]
    simp [initLocals]
  · intro x hx
    have := chunkAddrs_bounds base _ x hx
    omega

/-- C9 at the first step of the schedule, `n = 0` (`a = 128`), with
`base = 4096` and the iteration count `262144/128 = 2048` of that step. -/
theorem C9_schedule_step_safe_witness :
    (∃ calls, writerSchedule = .ok calls ∧ calls.length = 4096 ∧
        ∃ c, calls[0]? = some c ∧ c.a = ((128 + 256 * 0 : Nat) : Int) ∧
          c.alloc_size = (128 + 256 * 0) * 1024 ∧ intMul c.a 1024 = .ok (c.alloc_size : Int))
      ∧ 128 + 256 * 0 ≤ 1048448
      ∧ (128 + 256 * 0) * 1024 ≤ 1073610752
      ∧ (128 + 256 * 0) * 1024 / chunk_size = 32 * (128 + 256 * 0)
      ∧ (32 * (128 + 256 * 0)) % 4 = 0
      ∧ 32 * (128 + 256 * 0) < 2147483648
      ∧ (∃ s, storeLoops data zeroMem (some 4096) ((128 + 256 * 0) * 1024) 2048 = .ok s ∧
          s.rounds = (2048 : Int).toNat * (32 * (128 + 256 * 0) / 4) ∧
          s.stores
            = (List.replicate (2048 : Int).toNat (chunkAddrs 4096 (32 * (128 + 256 * 0)))).flatten)
      ∧ (chunkAddrs 4096 (32 * (128 + 256 * 0))).length = 32 * (128 + 256 * 0)
      ∧ (chunkAddrs 4096 (32 * (128 + 256 * 0))).Nodup
      ∧ (∀ x, x ∈ chunkAddrs 4096 (32 * (128 + 256 * 0)) →
          4096 ≤ x ∧ x + 32 ≤ 4096 + (128 + 256 * 0) * 1024) :=
  C9_schedule_step_safe 0 (by decide) data zeroMem 4096 (by decide) 2048

/-! ### The measurement -/

theorem bytesMoved_eq (alloc_size : Nat) (I : Int) (hI : 1 ≤ I)
    (hprod : (alloc_size : Int) * I < 18446744073709551616) :
    ((bytesMoved alloc_size I : Nat) : Int) = (alloc_size : Int) * I := by
  unfold bytesMoved toU64
  rcases Nat.eq_zero_or_pos alloc_size with h0 | hpos
  · subst h0
    simp
  · have h1 : I ≤ (alloc_size : Int) * I := by
      have : (1 : Int) ≤ (alloc_size : Int) := by exact_mod_cast hpos
      nlinarith
    have h2 : (I % 18446744073709551616).toNat = I.toNat := by omega
    have h3 : ((alloc_size * I.toNat : Nat) : Int) = (alloc_size : Int) * I := by
      push_cast
      rw [Int.toNat_of_nonneg (by omega)]
    rw [h2]
    have h4 : alloc_size * I.toNat < 18446744073709551616 := by
      have : ((alloc_size * I.toNat : Nat) : Int) < 18446744073709551616 := by rw [h3]; exact hprod
      exact_mod_cast this
    rw [Nat.mod_eq_of_lt h4, h3]

theorem measurement_eq (alloc_size : Nat) (I : Int) (c tsc_rate : Nat) (hI : 1 ≤ I)
    (hprod : (alloc_size : Int) * I < 18446744073709551616) (hc : 0 < c) (ht : 0 < tsc_rate) :
    measurement tsc_rate c alloc_size I
      = { size_kb := alloc_size / 1024
          bandwidth :=
            .fin (((alloc_size : ℚ) * (I : ℚ)) / ((c : ℚ) * 1000000 / (tsc_rate : ℚ)))
          cpu_time_us := .fin ((c : ℚ) * 1000000 / (tsc_rate : ℚ)) } := by
  have hb := bytesMoved_eq alloc_size I hI hprod
  have hbq : ((bytesMoved alloc_size I : Nat) : ℚ) = (alloc_size : ℚ) * (I : ℚ) := by
    have : (((bytesMoved alloc_size I : Nat) : Int) : ℚ)
        = (((alloc_size : Int) * I : Int) : ℚ) := by
      rw [hb]
    push_cast at this
    exact this
  have htq : (tsc_rate : ℚ) ≠ 0 := by exact_mod_cast (Nat.pos_iff_ne_zero.mp ht)
  have hcq : (c : ℚ) ≠ 0 := by exact_mod_cast (Nat.pos_iff_ne_zero.mp hc)
  have hcpu : (c : ℚ) / (tsc_rate : ℚ) * 1000000 = (c : ℚ) * 1000000 / (tsc_rate : ℚ) := by
    ring
  have hne : (c : ℚ) * 1000000 / (tsc_rate : ℚ) ≠ 0 := by positivity
  simp only [measurement, CDouble.ofU64, CDouble.div, CDouble.mul, if_neg htq, hcpu, if_neg hne,
    hbq]

theorem evaluateBandwidth_measurement (dat : Mem) (tsc_rate : Nat) (mem : Mem)
    (shared_mem : Option Nat) (c alloc_size : Nat) (sock I : Int) (s : Locals) (m : Measurement)
    (h : evaluateBandwidth dat tsc_rate mem shared_mem c alloc_size sock I = .ok (s, m)) :
    m = measurement tsc_rate c alloc_size I := by
  unfold evaluateBandwidth at h
  cases hs : storeLoops dat mem shared_mem alloc_size I with
  | error e => rw [hs] at h; cases h
  | ok s1 =>
    rw [hs] at h
    simp only [Except.ok.injEq, Prod.mk.injEq] at h
    exact h.2.symm

theorem evaluateBandwidth_ok (dat : Mem) (tsc_rate : Nat) (mem : Mem) (base c alloc_size : Nat)
    (sock I : Int) (hS : alloc_size % 128 = 0) (hB : alloc_size / 32 < 2147483648)
    (ha : base + alloc_size < 18446744073709551616) :
    evaluateBandwidth dat tsc_rate mem (some base) c alloc_size sock I
      = .ok (passes base (alloc_size / 32) I.toNat (initLocals dat mem),
          measurement tsc_rate c alloc_size I) := by
  unfold evaluateBandwidth
  rw [storeLoops_eq dat mem base alloc_size I hS hB ha]

theorem writerSchedule_get (n : Nat) (hn : n < 4096) :
    ∃ calls, writerSchedule = .ok calls ∧ calls[n]? = some (stepCall n) := by
  refine ⟨_, writerSchedule_eq, ?_⟩
  rw [List.getElem?_map, List.getElem?_range hn]
  rfl

theorem measurement_zero_rate (alloc_size : Nat) (I : Int) (c : Nat) (hc : 0 < c) :
    measurement 0 c alloc_size I
      = { size_kb := alloc_size / 1024, bandwidth := .fin 0, cpu_time_us := .inf } := by
  have hcq : ¬ ((c : ℚ) = 0) := by exact_mod_cast (Nat.pos_iff_ne_zero.mp hc)
  have hpos : (0 : ℚ) < (c : ℚ) := by exact_mod_cast hc
  simp [measurement, CDouble.ofU64, CDouble.div, CDouble.mul, hcq, hpos]

/-- C7: for every `alloc_size`, every iteration count `I >= 1` with
`alloc_size*I < 2^64` and every positive cycle count `c`, `evaluateBandwidth`
uses `bytes_moved = alloc_size*I` exactly and prints `alloc_size/1024` as the
size field; in exact arithmetic, with a positive counter frequency
`tsc_rate`, it reports `bandwidth = bytes_moved / elapsed_us` with
`elapsed_us = c * 10^6 / tsc_rate` (with `tsc_rate = 0` the elapsed time is
infinite and the bandwidth 0). These are the values of every run that
returns, and the run returns whenever the region was reserved and
`alloc_size/32` is at most `2^31 - 4`. The first step of the writer schedule
is the call with `alloc_size = 131072` and `I = 2048`; it returns, its size
field is 128 and its bandwidth is `(131072 * 2048) / elapsed_us`. -/
theorem C7_reported_bandwidth (alloc_size : Nat) (I : Int) (c tsc_rate : Nat) (hI : 1 ≤ I)
    (hprod : (alloc_size : Int) * I < 18446744073709551616) (hc : 0 < c) :
    ((bytesMoved alloc_size I : Nat) : Int) = (alloc_size : Int) * I
      ∧ (measurement tsc_rate c alloc_size I).size_kb = alloc_size / 1024
      ∧ (0 < tsc_rate →
          measurement tsc_rate c alloc_size I
            = { size_kb := alloc_size / 1024
                bandwidth :=
                  .fin (((alloc_size : ℚ) * (I : ℚ)) / ((c : ℚ) * 1000000 / (tsc_rate : ℚ)))
                cpu_time_us := .fin ((c : ℚ) * 1000000 / (tsc_rate : ℚ)) })
      ∧ (tsc_rate = 0 →
          measurement tsc_rate c alloc_size I
            = { size_kb := alloc_size / 1024, bandwidth := .fin 0, cpu_time_us := .inf })
      ∧ (∀ dat mem shared_mem sock s m,
          evaluateBandwidth dat tsc_rate mem shared_mem c alloc_size sock I = .ok (s, m) →
            m = measurement tsc_rate c alloc_size I)
      ∧ (∀ dat mem base sock, alloc_size / 32 ≤ 2147483644 →
          ∃ s, evaluateBandwidth dat tsc_rate mem (some base) c alloc_size sock I
            = .ok (s, measurement tsc_rate c alloc_size I))
      ∧ (∃ calls, writerSchedule = .ok calls ∧
          calls[0]? = some { a := 128, alloc_size := 131072, iterations := 2048 })
      ∧ (∀ dat mem base sock, 0 < tsc_rate →
          ∃ s, evaluateBandwidth dat tsc_rate mem (some base) c 131072 sock 2048
            = .ok (s, { size_kb := 128
                        bandwidth :=
                          .fin ((131072 * 2048 : ℚ) / ((c : ℚ) * 1000000 / (tsc_rate : ℚ)))
                        cpu_time_us := .fin ((c : ℚ) * 1000000 / (tsc_rate : ℚ)) })) := by
  refine ⟨bytesMoved_eq alloc_size I hI hprod, rfl,
    fun ht => measurement_eq alloc_size I c tsc_rate hI hprod hc ht,
    fun h0 => by rw [h0]; exact measurement_zero_rate alloc_size I c hc,
    fun dat mem shared_mem sock s m h =>
      evaluateBandwidth_measurement dat tsc_rate mem shared_mem c alloc_size sock I s m h,
    fun dat mem base sock hB =>
      evaluateBandwidth_returns dat tsc_rate mem base c alloc_size sock I hB,
    writerSchedule_get 0 (by norm_num), ?_⟩
  intro dat mem base sock ht
  obtain ⟨s, hs⟩ := evaluateBandwidth_returns dat tsc_rate mem base c 131072 sock 2048
    (by norm_num)
  refine ⟨s, ?_⟩
  rw [hs, measurement_eq 131072 2048 c tsc_rate (by norm_num) (by norm_num) hc ht]
  norm_num

/-- C7 at `alloc_size = 131072`, `I = 2048`, `c = 3000000` cycles and
`tsc_rate = 3000000000` Hz. -/
theorem C7_reported_bandwidth_witness :
    ((bytesMoved 131072 2048 : Nat) : Int) = ((131072 : Nat) : Int) * 2048
      ∧ (measurement 3000000000 3000000 131072 2048).size_kb = 131072 / 1024
      ∧ (0 < 3000000000 →
          measurement 3000000000 3000000 131072 2048
            = { size_kb := 131072 / 1024
                bandwidth :=
                  .fin ((((131072 : Nat) : ℚ) * ((2048 : Int) : ℚ))
                    / (((3000000 : Nat) : ℚ) * 1000000 / ((3000000000 : Nat) : ℚ)))
                cpu_time_us :=
                  .fin (((3000000 : Nat) : ℚ) * 1000000 / ((3000000000 : Nat) : ℚ)) })
      ∧ (3000000000 = 0 →
          measurement 3000000000 3000000 131072 2048
            = { size_kb := 131072 / 1024, bandwidth := .fin 0, cpu_time_us := .inf })
      ∧ (∀ dat mem shared_mem sock s m,
          evaluateBandwidth dat 3000000000 mem shared_mem 3000000 131072 sock 2048 = .ok (s, m) →
            m = measurement 3000000000 3000000 131072 2048)
      ∧ (∀ dat mem base sock, 131072 / 32 ≤ 2147483644 →
          ∃ s, evaluateBandwidth dat 3000000000 mem (some base) 3000000 131072 sock 2048
            = .ok (s, measurement 3000000000 3000000 131072 2048))
      ∧ (∃ calls, writerSchedule = .ok calls ∧
          calls[0]? = some { a := 128, alloc_size := 131072, iterations := 2048 })
      ∧ (∀ dat mem base sock, 0 < 3000000000 →
          ∃ s, evaluateBandwidth dat 3000000000 mem (some base) 3000000 131072 sock 2048
            = .ok (s, { size_kb := 128
                        bandwidth :=
                          .fin ((131072 * 2048 : ℚ)
                            / (((3000000 : Nat) : ℚ) * 1000000 / ((3000000000 : Nat) : ℚ)))
                        cpu_time_us :=
                          .fin (((3000000 : Nat) : ℚ) * 1000000
                            / ((3000000000 : Nat) : ℚ)) })) :=
  C7_reported_bandwidth 131072 2048 3000000 3000000000 (by decide) (by decide) (by decide)

/-- C5, the code at the failing step: step 1024 of the writer schedule has
`a = 262272 > 262144`, so the integer division `262144/a` yields the
iteration count 0 (not at least 1) and the step moves 0 bytes (not more than
128 MiB). -/
theorem C5_step_1024_zero_iterations :
    ∃ calls, writerSchedule = .ok calls ∧
      calls[1024]? = some { a := 262272, alloc_size := 268566528, iterations := 0 } ∧
      bytesMoved 268566528 0 = 0 := by
  obtain ⟨calls, h1, h2⟩ := writerSchedule_get 1024 (by norm_num)
  exact ⟨calls, h1, h2, by decide⟩

/-- C6, the code at the failing step: the call made by step 1024 of the
writer schedule, `evaluateBandwidth(268566528, socket, 0)`, with a positive
elapsed time (5 cycles at 1 MHz, 5 microseconds) computes and returns the
bandwidth 0, which is not strictly positive. -/
theorem C6_step_1024_zero_bandwidth :
    (∃ calls, writerSchedule = .ok calls ∧
        calls[1024]? = some { a := 262272, alloc_size := 268566528, iterations := 0 })
      ∧ ∃ s, evaluateBandwidth data 1000000 zeroMem (some 4096) 5 268566528 0 0
          = .ok (s, { size_kb := 262272, bandwidth := .fin 0, cpu_time_us := .fin 5 }) := by
  refine ⟨writerSchedule_get 1024 (by norm_num), passes 4096 (268566528 / 32) (0 : Int).toNat
    (initLocals data zeroMem), ?_⟩
  rw [evaluateBandwidth_ok data 1000000 zeroMem 4096 5 268566528 0 0 (by norm_num) (by norm_num)
    (by norm_num)]
  have hb : bytesMoved 268566528 0 = 0 := by decide
  simp only [measurement, hb, CDouble.ofU64, CDouble.div, CDouble.mul]
  norm_num

/-! ### The reader branch -/

theorem readerFor_null (mem : Mem) (clock : Nat → Timeval) (alloc_size : Nat) (blocks : Int)
    (n j : Nat) (r : ReaderState) :
    readerFor mem none clock alloc_size blocks (n + 1) j r = .error .nullDeref := by
  simp only [readerFor]

theorem readerFor_zero_elapsed (mem : Mem) (base : Nat) (clock : Nat → Timeval)
    (alloc_size : Nat) (blocks : Int) (hlt : blocks < INT_MAX) (n j : Nat) (r : ReaderState)
    (hz : sampleUs clock j = 0) :
    readerFor mem (some base) clock alloc_size blocks (n + 1) j r = .error .divideByZero := by
  obtain ⟨y1, hw⟩ := readerWhile_sweep mem blocks hlt base r.ymm0
  unfold sampleUs at hz
  simp only [readerFor, hw, if_pos hz]

theorem readerBranch_ok (mem : Mem) (lookup : Nat → Option Nat) (clock : Nat → Timeval)
    (alloc_size : Nat) (ymm0 : M256i) (base : Nat) (hfound : lookup 0 = some base)
    (hblocks : toInt32 (alloc_size / chunk_size) < INT_MAX)
    (hclock : ∀ j, j < 100000000 → sampleUs clock j ≠ 0) :
    ∃ r, readerBranch mem lookup clock alloc_size ymm0 = .ok r ∧ r.lookups = 1 ∧
      r.state.lines = (List.range 100000000).map
        (fun k => (alloc_size / sampleUs clock k, sampleUs clock k)) ∧
      r.state.sweeps = List.replicate 100000000
        (sweepLoads base (toInt32 (alloc_size / chunk_size))) := by
  obtain ⟨y, h⟩ := readerFor_ok mem base clock alloc_size (toInt32 (alloc_size / chunk_size))
    hblocks 100000000 0 { ymm0 := ymm0, lines := [], sweeps := [] }
    (fun k _ hk => hclock k (by omega))
  refine ⟨{ state :=
              { ymm0 := y
                lines := (List.range 100000000).map
                  (fun k => (alloc_size / sampleUs clock k, sampleUs clock k))
                sweeps := List.replicate 100000000
                  (sweepLoads base (toInt32 (alloc_size / chunk_size))) }
            lookups := 1 }, ?_, ?_, ?_, ?_⟩
  · unfold readerBranch
    rw [hfound, h]
    simp only [List.nil_append, List.range_eq_range']
  · simp only
  · simp only
  · simp only

theorem sweepLoads_eq_chunkAddrs (base alloc_size : Nat) (h64 : alloc_size % 64 = 0)
    (hB : alloc_size / 32 < 2147483648) (ha : base + alloc_size < 18446744073709551616) :
    sweepLoads base (toInt32 (alloc_size / chunk_size)) = chunkAddrs base (alloc_size / 32) := by
  have hc : alloc_size / chunk_size = alloc_size / 32 := by unfold chunk_size; norm_num
  have ht : toInt32 (alloc_size / 32) = ((alloc_size / 32 : Nat) : Int) := by
    unfold toInt32
    have hm : alloc_size / 32 % 4294967296 = alloc_size / 32 := Nat.mod_eq_of_lt (by omega)
    rw [hm, if_pos hB]
  have hr : 2 * readerRounds ((alloc_size / 32 : Nat) : Int) = alloc_size / 32 := by
    unfold readerRounds
    omega
  unfold sweepLoads chunkAddrs
  rw [hc, ht, hr]
  apply List.map_congr_left
  intro k hk
  rw [List.mem_range] at hk
  have hb : base % 18446744073709551616 = base := Nat.mod_eq_of_lt (by omega)
  rw [hb]
  exact Nat.mod_eq_of_lt (by omega)

theorem tickClock_sample (j : Nat) : sampleUs tickClock j = 1 := by
  simp only [sampleUs, elapsedUs, tickClock, toU64]
  omega

theorem frozenClock_sample (j : Nat) : sampleUs frozenClock j = 0 := by
  simp only [sampleUs, elapsedUs, frozenClock, toU64]
  omega

theorem toInt32_small : toInt32 (1024 / chunk_size) < INT_MAX := by decide

/-- C3 as stated fails: when the region is absent at the lookup of line 206
and published afterwards, the reader branch does not look it up again; its
first loop iteration dereferences the null result. -/
theorem C3_counterexample :
    lateLookup 0 = none ∧ lateLookup 1 = some 4096
      ∧ readerBranch zeroMem lateLookup tickClock 1024 pattern = .error .nullDeref := by
  refine ⟨rfl, rfl, ?_⟩
  unfold readerBranch
  have h0 : lateLookup 0 = none := rfl
  rw [h0, show (100000000 : Nat) = 99999999 + 1 from rfl, readerFor_null]

/-- C3 amended: the reader branch calls `rte_memzone_lookup` exactly once and
never retries, so its outcome depends on the first lookup result only; when
that lookup yields a region at `base` (of `alloc_size` bytes, a multiple of
64 with fewer than `2^31` chunks, inside the address space; elapsed times
non-zero) the branch runs to its idle loop and every read sweep loads exactly
the chunk addresses `base + 32*k` of that region, all inside
`[base, base + alloc_size)`. -/
theorem C3_single_lookup (mem : Mem) (lookup : Nat → Option Nat) (clock : Nat → Timeval)
    (alloc_size : Nat) (ymm0 : M256i) (base : Nat) (hfound : lookup 0 = some base)
    (h64 : alloc_size % 64 = 0) (hB : alloc_size / 32 < 2147483648)
    (ha : base + alloc_size < 18446744073709551616)
    (hclock : ∀ j, j < 100000000 → sampleUs clock j ≠ 0) :
    (∃ r, readerBranch mem lookup clock alloc_size ymm0 = .ok r ∧ r.lookups = 1 ∧
        (∀ sw, sw ∈ r.state.sweeps → sw = chunkAddrs base (alloc_size / 32)))
      ∧ (∀ x, x ∈ chunkAddrs base (alloc_size / 32) →
          base ≤ x ∧ x + 32 ≤ base + alloc_size)
      ∧ (∀ lookup1 : Nat → Option Nat, lookup1 0 = lookup 0 →
          readerBranch mem lookup1 clock alloc_size ymm0
            = readerBranch mem lookup clock alloc_size ymm0) := by
  have hblocks : toInt32 (alloc_size / chunk_size) < INT_MAX := by
    have hc : alloc_size / chunk_size = alloc_size / 32 := by unfold chunk_size; norm_num
    have hm : alloc_size / 32 % 4294967296 = alloc_size / 32 := Nat.mod_eq_of_lt (by omega)
    unfold toInt32 INT_MAX
    rw [hc, hm, if_pos hB]
    omega
  obtain ⟨r, h, hl, _, hsw⟩ :=
    readerBranch_ok mem lookup clock alloc_size ymm0 base hfound hblocks hclock
  refine ⟨⟨r, h, hl, ?_⟩, ?_, ?_⟩
  · intro sw hmem
    rw [hsw] at hmem
    rw [List.eq_of_mem_replicate hmem]
    exact sweepLoads_eq_chunkAddrs base alloc_size h64 hB ha
  · intro x hx
    have := chunkAddrs_bounds base _ x hx
    omega
  · intro lookup1 h1
    unfold readerBranch
    rw [h1]

/-- C3 amended, for a region of 1024 bytes published at address 4096. -/
theorem C3_single_lookup_witness :
    (∃ r, readerBranch zeroMem foundLookup tickClock 1024 pattern = .ok r ∧ r.lookups = 1 ∧
        (∀ sw, sw ∈ r.state.sweeps → sw = chunkAddrs 4096 (1024 / 32)))
      ∧ (∀ x, x ∈ chunkAddrs 4096 (1024 / 32) → 4096 ≤ x ∧ x + 32 ≤ 4096 + 1024)
      ∧ (∀ lookup1 : Nat → Option Nat, lookup1 0 = foundLookup 0 →
          readerBranch zeroMem lookup1 tickClock 1024 pattern
            = readerBranch zeroMem foundLookup tickClock 1024 pattern) :=
  C3_single_lookup zeroMem foundLookup tickClock 1024 pattern 4096 rfl (by decide) (by decide)
    (by decide) (fun j _ => by rw [tickClock_sample]; decide)

/-- C4 as stated fails: when the two `gettimeofday` results of a reader
iteration coincide, `elapsed` is 0 and the reader evaluates the integer
quotient `alloc_size/elapsed`, a division by zero; no degenerate sample is
reported and the loop does not continue. -/
theorem C4_counterexample :
    sampleUs frozenClock 0 = 0
      ∧ readerBranch zeroMem foundLookup frozenClock 1024 pattern = .error .divideByZero := by
  refine ⟨frozenClock_sample 0, ?_⟩
  unfold readerBranch
  have h0 : foundLookup 0 = some 4096 := rfl
  rw [h0, show (100000000 : Nat) = 99999999 + 1 from rfl,
    readerFor_zero_elapsed zeroMem 4096 frozenClock 1024 _ toInt32_small 99999999 0 _
      (frozenClock_sample 0)]

/-- C4 amended: the code has no guard for a zero elapsed time. In the writer,
when the cycle-counter difference is 0 (`tsc_rate` positive, region reserved,
at most `2^31 - 4` chunks) the floating-point division by the zero elapsed
time is carried out and does not fault: `evaluateBandwidth` prints and
returns an infinity, or a NaN when no bytes were moved, and returns to the
schedule loop. In the reader, every sample with a non-zero elapsed time is
printed as `alloc_size/elapsed` and the loop continues with the next
sample. -/
theorem C4_unguarded_division (dat mem : Mem) (base S : Nat) (sock I : Int) (tsc_rate : Nat)
    (hB : S / 32 ≤ 2147483644) (ht : 0 < tsc_rate)
    (rmem : Mem) (lookup : Nat → Option Nat) (clock : Nat → Timeval) (alloc_size : Nat)
    (ymm0 : M256i) (rbase : Nat) (hfound : lookup 0 = some rbase)
    (hblocks : toInt32 (alloc_size / chunk_size) < INT_MAX)
    (hclock : ∀ j, j < 100000000 → sampleUs clock j ≠ 0) :
    (∃ s, evaluateBandwidth dat tsc_rate mem (some base) 0 S sock I
        = .ok (s, { size_kb := S / 1024
                    bandwidth := if bytesMoved S I = 0 then .nan else .inf
                    cpu_time_us := .fin 0 }))
      ∧ (∃ r, readerBranch rmem lookup clock alloc_size ymm0 = .ok r ∧
          r.state.lines = (List.range 100000000).map
            (fun j => (alloc_size / sampleUs clock j, sampleUs clock j))) := by
  constructor
  · obtain ⟨s, hs⟩ := evaluateBandwidth_returns dat tsc_rate mem base 0 S sock I hB
    refine ⟨s, ?_⟩
    rw [hs]
    have htq : (tsc_rate : ℚ) ≠ 0 := by exact_mod_cast (Nat.pos_iff_ne_zero.mp ht)
    by_cases hb : bytesMoved S I = 0
    · simp [measurement, CDouble.ofU64, CDouble.div, CDouble.mul, htq, hb]
    · have hbq : ((bytesMoved S I : Nat) : ℚ) ≠ 0 := by exact_mod_cast hb
      have hpos : (0 : ℚ) < ((bytesMoved S I : Nat) : ℚ) := by
        exact_mod_cast Nat.pos_of_ne_zero hb
      simp [measurement, CDouble.ofU64, CDouble.div, CDouble.mul, htq, hb, hpos]
  · obtain ⟨r, h, _, hlines, _⟩ :=
      readerBranch_ok rmem lookup clock alloc_size ymm0 rbase hfound hblocks hclock
    exact ⟨r, h, hlines⟩

/-- C4 amended, for a writer call on 256 bytes with 3 passes and a reader of a
1024-byte region whose clock advances between the two reads. -/
theorem C4_unguarded_division_witness :
    (∃ s, evaluateBandwidth data 1000000 zeroMem (some 4096) 0 256 0 3
        = .ok (s, { size_kb := 256 / 1024
                    bandwidth := if bytesMoved 256 3 = 0 then .nan else .inf
                    cpu_time_us := .fin 0 }))
      ∧ (∃ r, readerBranch zeroMem foundLookup tickClock 1024 pattern = .ok r ∧
          r.state.lines = (List.range 100000000).map
            (fun j => (1024 / sampleUs tickClock j, sampleUs tickClock j))) :=
  C4_unguarded_division data zeroMem 4096 256 0 3 1000000 (by decide) (by decide) zeroMem
    foundLookup tickClock 1024 pattern 4096 rfl toInt32_small
    (fun j _ => by rw [tickClock_sample]; decide)

/-- C8 as stated fails: the reader loop is `for (j = 0; j < 100000000; j++)`;
a reader whose lookup succeeded and whose elapsed times are non-zero performs
exactly 100000000 timed read sweeps and then idles, so it does not perform
more than `n` sweeps for every `n`. -/
theorem C8_counterexample :
    (∃ r, readerBranch zeroMem foundLookup tickClock 1024 pattern = .ok r ∧
        r.state.sweeps.length = 100000000)
      ∧ ¬ (∀ n : Nat, ∃ r,
          readerBranch zeroMem foundLookup tickClock 1024 pattern = .ok r ∧
            n < r.state.sweeps.length) := by
  obtain ⟨r0, h, _, _, hsw⟩ := readerBranch_ok zeroMem foundLookup tickClock 1024 pattern 4096
    rfl toInt32_small (fun j _ => by rw [tickClock_sample]; decide)
  have hlen : r0.state.sweeps.length = 100000000 := by rw [hsw, List.length_replicate]
  refine ⟨⟨r0, h, hlen⟩, ?_⟩
  intro hall
  obtain ⟨r, hr, hlt⟩ := hall 100000000
  rw [h] at hr
  simp only [Except.ok.injEq] at hr
  rw [← hr, hlen] at hlt
  exact Nat.lt_irrefl _ hlt

/-- C8 amended: the reader's sampling loop is bounded by the constant
100000000: a reader whose lookup succeeded, whose elapsed times are non-zero
(and whose block count is below `INT_MAX`) performs exactly 100000000 timed
read sweeps, each followed by one printed bandwidth line, and then enters the
idle loop. -/
theorem C8_bounded_sampling (mem : Mem) (lookup : Nat → Option Nat) (clock : Nat → Timeval)
    (alloc_size : Nat) (ymm0 : M256i) (base : Nat) (hfound : lookup 0 = some base)
    (hblocks : toInt32 (alloc_size / chunk_size) < INT_MAX)
    (hclock : ∀ j, j < 100000000 → sampleUs clock j ≠ 0) :
    ∃ r, readerBranch mem lookup clock alloc_size ymm0 = .ok r ∧
      r.state.sweeps.length = 100000000 ∧ r.state.lines.length = 100000000 := by
  obtain ⟨r, h, _, hlines, hsw⟩ :=
    readerBranch_ok mem lookup clock alloc_size ymm0 base hfound hblocks hclock
  refine ⟨r, h, ?_, ?_⟩
  · rw [hsw, List.length_replicate]
  · rw [hlines, List.length_map, List.length_range]

/-- C8 amended, for a region of 1024 bytes published at address 4096. -/
theorem C8_bounded_sampling_witness :
    ∃ r, readerBranch zeroMem foundLookup tickClock 1024 pattern = .ok r ∧
      r.state.sweeps.length = 100000000 ∧ r.state.lines.length = 100000000 :=
  C8_bounded_sampling zeroMem foundLookup tickClock 1024 pattern 4096 rfl toInt32_small
    (fun j _ => by rw [tickClock_sample]; decide)

end SimpleMpMem
